import Mathlib

/-!
# Verification of the godash-diagrams core

A shallow embedding of the interactive-diagram core of the
`godash-diagrams` repository, together with theorems settling the frozen
claims about its specification.

Components embedded here (translated from the TypeScript source):

* the rules collaborator (the external `godash` library: legality
  checking, move application, capture diff, ko derivation) as consumed by
  the diagrams, see `src/lib/diagrams/types.ts` and the spec's external
  interface section;
* the problem sequence-tree engine (`src/lib/diagrams/ProblemDiagram.ts`);
* the replay move-sequence builder (`src/lib/diagrams/ReplayDiagram.ts`);
* the freeplay state machine (`FreeplayDiagram.ts`).

Rendering, DOM wiring and YAML parsing are out of scope (as in the spec);
the state machines are modelled at the level of their click/undo/redo/
pass/reset handlers, with the DOM-geometry part of a click reduced to the
board coordinate it produces.
-/

namespace GodashDiagrams

/-! ## The rules collaborator (godash)

The `godash` library is an external collaborator of this repository: the
spec's data-model section says a rule-checked `Board` construction
"rejects illegal placements (suicide, occupied point)", and the
repository's own tests rely on `addMove` throwing on an occupied point.
The definitions below implement the standard Go rules this collaborator
provides: a stone is placed on an empty in-bounds point, adjacent
opponent groups without liberties are removed, and a move whose own group
would end with no liberty (suicide) is illegal.  Fallible application is
an `Except`, modelling the thrown exception. -/

inductive GoColor where
  | black
  | white
deriving DecidableEq, Repr

def GoColor.opposite : GoColor → GoColor
  | .black => .white
  | .white => .black

/-- A board coordinate `(row, column)`, godash's `Coordinate(x, y)` with
value equality. -/
abbrev Pos := Nat × Nat

/-- godash's `Move`: a coordinate plus the color placed there. -/
structure GoMove where
  coord : Pos
  color : GoColor
deriving DecidableEq, Repr

/-- godash's `Board`: an N×N grid of points each empty or holding a
stone.  The grid is stored row-major; `none` is an empty point. -/
structure Board where
  size : Nat
  grid : List (List (Option GoColor))
deriving DecidableEq, Repr

def getCell (b : Board) (p : Pos) : Option GoColor :=
  ((b.grid.get? p.1).bind (fun row => row.get? p.2)).join

def setCell (b : Board) (p : Pos) (v : Option GoColor) : Board :=
  { b with grid := b.grid.set p.1 (((b.grid.get? p.1).getD []).set p.2 v) }

def inBoundsB (b : Board) (p : Pos) : Bool :=
  decide (p.1 < b.size) && decide (p.2 < b.size)

def neighbors (p : Pos) : List Pos :=
  [(p.1 + 1, p.2), (p.1, p.2 + 1)]
    ++ (if p.1 > 0 then [(p.1 - 1, p.2)] else [])
    ++ (if p.2 > 0 then [(p.1, p.2 - 1)] else [])

/-- Fuel-bounded flood fill collecting the connected group of stones of
color `col`, starting from the work list `stack`. -/
def floodAux (b : Board) (col : GoColor) : Nat → List Pos → List Pos → List Pos
  | 0, _, acc => acc
  | _ + 1, [], acc => acc
  | fuel + 1, p :: rest, acc =>
      if acc.contains p then
        floodAux b col fuel rest acc
      else if inBoundsB b p && getCell b p == some col then
        floodAux b col fuel (neighbors p ++ rest) (p :: acc)
      else
        floodAux b col fuel rest acc

/-- Enough fuel to exhaust any flood fill on board `b`: each accepted
point pushes at most four neighbors and at most `size²` points are ever
accepted. -/
def floodFuel (b : Board) : Nat :=
  4 * b.size * b.size + 5

/-- The maximal group of same-colored stones connected to `p` (empty if
`p` holds no stone). -/
def groupOf (b : Board) (p : Pos) : List Pos :=
  match getCell b p with
  | some col => floodAux b col (floodFuel b) [p] []
  | none => []

def hasLiberty (b : Board) (g : List Pos) : Bool :=
  g.any (fun p => (neighbors p).any (fun q => inBoundsB b q && getCell b q == none))

def removeGroup (b : Board) (g : List Pos) : Board :=
  g.foldl (fun acc p => setCell acc p none) b

/-- Place the stone and remove any adjacent opponent group left without
a liberty (the unconditional part of godash's move application). -/
def applyMoveRaw (b : Board) (m : GoMove) : Board :=
  let b1 := setCell b m.coord (some m.color)
  let opp := m.color.opposite
  (neighbors m.coord).foldl
    (fun acc q =>
      if inBoundsB acc q && getCell acc q == some opp then
        let g := groupOf acc q
        if hasLiberty acc g then acc else removeGroup acc g
      else acc)
    b1

/-- godash's `isLegalMove`: the point is in bounds and empty, and after
captures the played group retains a liberty (no suicide). -/
def isLegalMove (b : Board) (m : GoMove) : Bool :=
  inBoundsB b m.coord && getCell b m.coord == none &&
    (let b2 := applyMoveRaw b m
     hasLiberty b2 (groupOf b2 m.coord))

/-- godash's `addMove`: pure move application, throwing on an illegal
move (occupied point, out of bounds, suicide).  The repository's own
tests depend on the throw (`StaticDiagram.test.ts`: a mark placed on an
occupied point "should throw"). -/
def addMove (b : Board) (m : GoMove) : Except String Board :=
  if isLegalMove b m then .ok (applyMoveRaw b m) else .error "illegal move"

/-- Deduplicated empty in-bounds neighbors of a group. -/
def libertiesOf (b : Board) (g : List Pos) : List Pos :=
  ((g.flatMap neighbors).filter
    (fun q => inBoundsB b q && getCell b q == none)).dedup

def allCoords (b : Board) : List Pos :=
  (List.range b.size).flatMap (fun r => (List.range b.size).map (fun c => (r, c)))

/-- Modelled from the spec: godash's `followupKo(board, move)`, the
ko-point derivation consumed by the diagrams (external interfaces
section; glossary: "a coordinate temporarily forbidden to the side that
would otherwise immediately recapture a single stone").  The move
captures exactly one stone and the played stone sits alone with the
vacated point as its only liberty; that point is the ko point. -/
def followupKo (b : Board) (m : GoMove) : Option Pos :=
  let after := applyMoveRaw b m
  let captured := (allCoords b).filter
    (fun c => getCell b c == some m.color.opposite && getCell after c == none)
  match captured with
  | [k] =>
      let g := groupOf after m.coord
      if g.length == 1 && libertiesOf after g == [k] then some k else none
  | _ => none

/-- One coordinate's contribution to the board diff: its stone on the
first board when the second board holds nothing there. -/
def diffEntry (b1 b2 : Board) (c : Pos) : Option (Pos × GoColor) :=
  match getCell b1 c with
  | some col => if getCell b2 c == none then some (c, col) else none
  | none => none

/-- Modelled from the spec: godash's `difference(board1, board2)` as the
capture accountant consumes it — "a pure diff counting coordinates that
were `color` in `before` and `empty` in `after`" — the stones of the
first board whose coordinate holds nothing on the second board. -/
def difference (b1 b2 : Board) : List (Pos × GoColor) :=
  (allCoords b1).filterMap (diffEntry b1 b2)

/-- Result of `countCapturesFromDiff` (`types.ts`). -/
structure CapCount where
  whiteCaptured : Nat
  blackCaptured : Nat
deriving DecidableEq, Repr

/-- `countCapturesFromDiff` (`src/lib/diagrams/types.ts`): counts the
white and black entries of the board diff. -/
def countCapturesFromDiff (boardBefore boardAfter : Board) : CapCount :=
  (difference boardBefore boardAfter).foldl
    (fun acc entry =>
      match entry.2 with
      | .white => { acc with whiteCaptured := acc.whiteCaptured + 1 }
      | .black => { acc with blackCaptured := acc.blackCaptured + 1 })
    { whiteCaptured := 0, blackCaptured := 0 }

/-- An empty n×n board. -/
def emptyBoard (n : Nat) : Board :=
  { size := n, grid := List.replicate n (List.replicate n none) }

/-- A board with the given stones force-placed (for concrete scenarios). -/
def boardWith (n : Nat) (stones : List (Pos × GoColor)) : Board :=
  stones.foldl (fun b s => setCell b s.1 (some s.2)) (emptyBoard n)

example : getCell (boardWith 3 [((1, 1), .black)]) (1, 1) = some .black := by decide
example : isLegalMove (boardWith 3 [((1, 1), .black)]) ⟨(1, 1), .white⟩ = false := by decide
example : isLegalMove (boardWith 3 [((1, 1), .black)]) ⟨(0, 0), .white⟩ = true := by decide
example :
    addMove (emptyBoard 2) ⟨(0, 0), .black⟩ =
      .ok (boardWith 2 [((0, 0), .black)]) := by rfl

-- A capture: white at (0,0) with black at (0,1) and (1,0); black's move
-- completing the surround removes the white stone.
example :
    applyMoveRaw (boardWith 2 [((0, 0), .white), ((0, 1), .black)]) ⟨(1, 0), .black⟩ =
      boardWith 2 [((0, 1), .black), ((1, 0), .black)] := by rfl

example :
    countCapturesFromDiff (boardWith 2 [((0, 0), .white), ((0, 1), .black)])
      (boardWith 2 [((0, 1), .black), ((1, 0), .black)]) =
      { whiteCaptured := 1, blackCaptured := 0 } := by rfl

/-! ## Sequence tree (`types.ts`, `ProblemDiagram.ts`)

`SequenceNode` is `{result, children, wildcardChild?}` where `children`
is an `ImmutableMap<Coordinate, SequenceNode>`.  The map is modelled as
an association list with value equality on coordinates: `set` replaces
the value of an existing key in place and appends a new key; `get` is
keyed lookup.  (Lookup behavior — all the play logic uses — is
order-independent; entry order only feeds the uniform-random reply
pick.)  `Option SequenceNode` is inlined as `WildcardSlot` so the three
types form one mutual inductive family. -/

/-- Result state for problem diagrams (`ProblemResult` in `types.ts`). -/
inductive PResult where
  | success
  | failure
  | incomplete
deriving DecidableEq, Repr

mutual
inductive SequenceTree where
  | nil : SequenceTree
  | cons (coord : Pos) (node : SequenceNode) (rest : SequenceTree) : SequenceTree

inductive SequenceNode where
  | mk (result : PResult) (children : SequenceTree) (wildcardChild : WildcardSlot) :
      SequenceNode

inductive WildcardSlot where
  | none : WildcardSlot
  | some (node : SequenceNode) : WildcardSlot
end

def SequenceNode.result : SequenceNode → PResult
  | .mk r _ _ => r

def SequenceNode.children : SequenceNode → SequenceTree
  | .mk _ c _ => c

def SequenceNode.wildcardChild : SequenceNode → WildcardSlot
  | .mk _ _ w => w

/-- `ImmutableMap.get`. -/
def mget : SequenceTree → Pos → Option SequenceNode
  | .nil, _ => none
  | .cons c n rest, p => if p = c then some n else mget rest p

/-- `ImmutableMap.set`: replace an existing key's value in place,
append a fresh key. -/
def mset : SequenceTree → Pos → SequenceNode → SequenceTree
  | .nil, p, v => .cons p v .nil
  | .cons c n rest, p, v =>
      if p = c then .cons c v rest else .cons c n (mset rest p v)

/-- `ImmutableMap.size`. -/
def tsize : SequenceTree → Nat
  | .nil => 0
  | .cons _ _ rest => tsize rest + 1

/-- The JavaScript test `wildcardChild === undefined`. -/
def isNoneW : WildcardSlot → Bool
  | .none => true
  | .some _ => false

/-- `Array.from(map.entries())`. -/
def entries : SequenceTree → List (Pos × SequenceNode)
  | .nil => []
  | .cons c n rest => (c, n) :: entries rest

-- Structure sizes used as the termination measure of the merge routine
-- (a `some` wildcard counts one more than its node so that the
-- dummy-map wrapping strictly shrinks).
mutual
def treeSize : SequenceTree → Nat
  | .nil => 0
  | .cons _ n rest => nodeSize n + treeSize rest + 1

def nodeSize : SequenceNode → Nat
  | .mk _ c w => treeSize c + slotSize w + 1

def slotSize : WildcardSlot → Nat
  | .none => 0
  | .some n => nodeSize n + 1
end

/-- The dummy coordinate `Coordinate(0, 0)` used by
`mergeSequenceTrees` to merge two wildcard children through the
map-merging routine. -/
def dummyCoord : Pos := (0, 0)

mutual
/-- `ProblemDiagram.mergeSequenceTrees`: fold the second tree's entries
into the first, merging nodes at shared coordinates through
`mergeNodes`. -/
def mergeSequenceTrees (tree1 tree2 : SequenceTree) : SequenceTree :=
  match tree2 with
  | .nil => tree1
  | .cons coord node2 rest =>
      let merged :=
        match mget tree1 coord with
        | some node1 => mset tree1 coord (mergeNodes node1 node2)
        | none => mset tree1 coord node2
      mergeSequenceTrees merged rest
termination_by treeSize tree2
decreasing_by
  all_goals simp [treeSize]; omega

/-- The node-level merge `mergeSequenceTrees` performs per shared
coordinate: children merge recursively; two wildcard children are
wrapped in single-entry dummy maps and merged through the same routine;
a merged node with any children or a wildcardChild is `incomplete`,
otherwise it keeps the first node's result. -/
def mergeNodes (node1 node2 : SequenceNode) : SequenceNode :=
  match node1, node2 with
  | .mk result1 children1 wild1, .mk _result2 children2 wild2 =>
      let mergedChildren := mergeSequenceTrees children1 children2
      let mergedWildcardChild : WildcardSlot :=
        match wild1, wild2 with
        | .some w1, .some w2 =>
            let dummyTree1 := mset .nil dummyCoord w1
            let dummyTree2 := mset .nil dummyCoord w2
            let mergedDummy := mergeSequenceTrees dummyTree1 dummyTree2
            match mget mergedDummy dummyCoord with
            | some w => .some w
            | none => .none
        | .some w1, .none => .some w1
        | .none, .some w2 => .some w2
        | .none, .none => .none
      let hasChildren := decide (tsize mergedChildren > 0) || !isNoneW mergedWildcardChild
      let mergedResult := if hasChildren then PResult.incomplete else result1
      .mk mergedResult mergedChildren mergedWildcardChild
termination_by nodeSize node2
decreasing_by
  · simp [nodeSize]; omega
  · simp [mset, treeSize, nodeSize, slotSize]; omega
end

/-! ## Sequence tree construction (`ProblemDiagram` constructor)

A declared path arrives as a list of items, each a resolved mark
coordinate or the wildcard `*` (the constructor resolves marks to their
unique coordinates before this loop; mark resolution itself is not
needed by any claim).  The constructor walks each path from its last
item to its first carrying `(tree, wildcardTree, hasWildcard)`; the
walk order is captured by reversing the path and flagging its original
last element. -/

inductive PathItem where
  | coord (p : Pos)
  | star
deriving DecidableEq, Repr

/-- The reversed path with each item flagged `isLastNode` (true exactly
for the original last item), i.e. the iteration order and flag of the
constructor's `for (let i = path.length - 1; i >= 0; i--)` loop. -/
def flaggedRev (path : List PathItem) : List (Bool × PathItem) :=
  match path.reverse with
  | [] => []
  | x :: xs => (true, x) :: xs.map (fun it => (false, it))

/-- One iteration of the constructor's bottom-up build loop. -/
def buildStep (isSolution : Bool) (state : SequenceTree × SequenceTree × Bool)
    (step : Bool × PathItem) : SequenceTree × SequenceTree × Bool :=
  let (tree0, wildcardTree0, hasWildcard) := state
  let (isLastNode, item) := step
  let nodeResult : PResult :=
    if isLastNode then (if isSolution then .success else .failure) else .incomplete
  match item with
  | .star => (tree0, wildcardTree0, true)
  | .coord c =>
      let (tree1, wildcardTree1) :=
        if hasWildcard then (SequenceTree.nil, tree0) else (tree0, wildcardTree0)
      let node : SequenceNode :=
        .mk nodeResult tree1
          (if tsize wildcardTree1 > 0 then
            .some (.mk .incomplete wildcardTree1 .none)
          else .none)
      (mset .nil c node, .nil, false)

/-- The constructor's build loop over a whole path (bottom-up, so over
the flagged reversed path); its first component is the tree the path
contributes. -/
def buildLoopState (isSolution : Bool) (items : List PathItem) :
    SequenceTree × SequenceTree × Bool :=
  List.foldl (buildStep isSolution) (.nil, .nil, false) (flaggedRev items)

/-- `ProblemDiagram.applyWildcardToTree`: give every root node the
given wildcardChild (keeping its result and children). -/
def applyWildcardToTree : SequenceTree → SequenceNode → SequenceTree
  | .nil, _ => .nil
  | .cons c n rest, w =>
      .cons c (.mk n.result n.children (.some w)) (applyWildcardToTree rest w)

/-- One declared sequence folded into the accumulated tree: a path
beginning with the wildcard builds its continuation and attaches it to
every current root node; any other path is built bottom-up and merged. -/
def addSequence (acc : SequenceTree) (seq : List PathItem × Bool) : SequenceTree :=
  let (path, isSolution) := seq
  if path.head? = some .star then
    let tree := (buildLoopState isSolution (path.drop 1)).1
    let wildcardNode : SequenceNode := .mk .incomplete tree .none
    applyWildcardToTree acc wildcardNode
  else
    mergeSequenceTrees acc (buildLoopState isSolution path).1

/-- The constructor's sequence-tree build over all declared
`(path, isSolution)` pairs (solutions first, then sequences, as the
constructor pushes them). -/
def buildSequenceTree (seqs : List (List PathItem × Bool)) : SequenceTree :=
  seqs.foldl addSequence .nil

/-- The root-level wildcard recomputation shared by the constructor's
cursor initialization and `reset()`: the wildcardChild of the first
root node that has one. -/
def rootWildcardOf : SequenceTree → WildcardSlot
  | .nil => .none
  | .cons _ n rest =>
      match n.wildcardChild with
      | .some w => .some w
      | .none => rootWildcardOf rest

/-! ### Sequence validation (constructor helper `validateSequence`) -/

/-- Wildcards are allowed only at even (player-move) positions. -/
def checkStars : List PathItem → Nat → Except String Unit
  | [], _ => .ok ()
  | .star :: rest, i =>
      if i % 2 == 0 then checkStars rest (i + 1)
      else .error "wildcard only for player moves"
  | .coord _ :: rest, i => checkStars rest (i + 1)

/-- Replaying the path (skipping wildcards) from the initial board must
be an all-legal move sequence. -/
def replaySeq (b : Board) (c : GoColor) : List PathItem → Except String Unit
  | [] => .ok ()
  | .star :: rest => replaySeq b c.opposite rest
  | .coord p :: rest =>
      if isLegalMove b ⟨p, c⟩ then
        match addMove b ⟨p, c⟩ with
        | .ok b2 => replaySeq b2 c.opposite rest
        | .error e => .error e
      else .error "illegal sequence move"

def validateSequence (board : Board) (toPlay : GoColor) (path : List PathItem) :
    Except String Unit := do
  checkStars path 0
  replaySeq board toPlay path

/-! ## Problem diagram state machine (`ProblemDiagram.ts`) -/

structure ProblemState where
  initialBoard : Board
  toPlay : GoColor
  ignoreKo : Bool
  sequenceTree : SequenceTree
  result : PResult
  currentTree : SequenceTree
  currentWildcard : WildcardSlot
  playedMoves : List GoMove
  currentBoard : Board
  isBlackTurn : Bool
  whiteCaptured : Nat
  blackCaptured : Nat
  koPoint : Option Pos

/-- The `ProblemDiagram` constructor after board parsing and mark
resolution: validate every declared sequence, build the tree, and set
up the play state (board after mark placement, cursor at the tree root,
root-level wildcard picked up). -/
def problemInit (board : Board) (toPlay : GoColor) (ignoreKo : Bool)
    (seqs : List (List PathItem × Bool)) : Except String ProblemState := do
  seqs.forM (fun seq => validateSequence board toPlay seq.1)
  let tree := buildSequenceTree seqs
  return { initialBoard := board
           toPlay := toPlay
           ignoreKo := ignoreKo
           sequenceTree := tree
           result := .incomplete
           currentTree := tree
           currentWildcard := rootWildcardOf tree
           playedMoves := []
           currentBoard := board
           isBlackTurn := toPlay == .black
           whiteCaptured := 0
           blackCaptured := 0
           koPoint := none }

/-- `ProblemDiagram.handleUserMove`.  The returned flag records whether
a deferred computer reply was scheduled (`setTimeout` on a node with
children).  The error case models the uncaught exception `addMove`
throws on an illegal (for example occupied) click, which this handler
does not guard against. -/
def handleUserMove (s : ProblemState) (coord : Pos) :
    Except String (ProblemState × Bool) :=
  if !s.ignoreKo && (match s.koPoint with | some k => decide (coord = k) | none => false) then
    -- Silently ignore ko violation
    .ok (s, false)
  else
    let node : Option SequenceNode :=
      match mget s.currentTree coord with
      | some n => some n
      | none => match s.currentWildcard with | .some w => some w | .none => none
    let currentColor : GoColor := if s.isBlackTurn then .black else .white
    let move : GoMove := ⟨coord, currentColor⟩
    let playedMoves := s.playedMoves ++ [move]
    let boardBefore := s.currentBoard
    match addMove s.currentBoard move with
    | .error e => .error e
    | .ok newBoard =>
        let captures := countCapturesFromDiff boardBefore newBoard
        let koPoint := if !s.ignoreKo then followupKo boardBefore move else s.koPoint
        let base := { s with playedMoves := playedMoves
                             currentBoard := newBoard
                             whiteCaptured := s.whiteCaptured + captures.whiteCaptured
                             blackCaptured := s.blackCaptured + captures.blackCaptured
                             koPoint := koPoint
                             isBlackTurn := !s.isBlackTurn }
        match node with
        | none =>
            .ok ({ base with
                    result := if s.result ≠ .success then .failure else s.result
                    currentTree := .nil
                    currentWildcard := .none }, false)
        | some n =>
            .ok ({ base with
                    result := n.result
                    currentTree := n.children
                    currentWildcard := n.wildcardChild }, tsize n.children > 0)

/-- `ProblemDiagram.playComputerResponse`: the deferred callback.  It
reads the tree cursor at fire time; `pick` stands for the uniform
random draw `Math.floor(Math.random() * children.length)` (reduced
modulo the child count, which is the identity for every draw the source
can make). -/
def playComputerResponse (s : ProblemState) (pick : Nat) : Except String ProblemState :=
  let children := entries s.currentTree
  match children with
  | [] => .ok s
  | c0 :: _ =>
      let (coord, n) := children.getD (pick % children.length) c0
      let currentColor : GoColor := if s.isBlackTurn then .black else .white
      let move : GoMove := ⟨coord, currentColor⟩
      let boardBefore := s.currentBoard
      match addMove s.currentBoard move with
      | .error e => .error e
      | .ok newBoard =>
          let captures := countCapturesFromDiff boardBefore newBoard
          let koPoint := if !s.ignoreKo then followupKo boardBefore move else s.koPoint
          .ok { s with playedMoves := s.playedMoves ++ [move]
                       currentBoard := newBoard
                       whiteCaptured := s.whiteCaptured + captures.whiteCaptured
                       blackCaptured := s.blackCaptured + captures.blackCaptured
                       koPoint := koPoint
                       isBlackTurn := !s.isBlackTurn
                       result := n.result
                       currentTree := n.children
                       currentWildcard := n.wildcardChild }

/-- `ProblemDiagram.reset`. -/
def problemReset (s : ProblemState) : ProblemState :=
  { s with currentTree := s.sequenceTree
           currentWildcard := rootWildcardOf s.sequenceTree
           playedMoves := []
           currentBoard := s.initialBoard
           isBlackTurn := s.toPlay == .black
           result := .incomplete
           whiteCaptured := 0
           blackCaptured := 0
           koPoint := none }

/-! ## Replay diagram (`ReplayDiagram.ts`)

The move-sequence builder: numbered board marks plus an optional
reference table are validated into a strictly consecutive move list;
navigation rebuilds the board from scratch.  Board marks arrive as the
parsed `otherMarks` record (mark text to coordinate list, in entry
order). -/

structure ParsedMove where
  moveNumber : Nat
  coordinate : Pos
  color : GoColor
deriving DecidableEq, Repr

def charDigit? (c : Char) : Option Nat :=
  if c.toNat ≥ 48 ∧ c.toNat ≤ 57 then some (c.toNat - 48) else none

def digitsVal : List Char → Nat → Option Nat
  | [], acc => some acc
  | c :: rest, acc =>
      match charDigit? c with
      | some d => digitsVal rest (acc * 10 + d)
      | none => none

/-- A canonical decimal natural: `"0"`, or digits without a leading
zero. -/
def parseCanonicalNatChars : List Char → Option Nat
  | [] => none
  | ['0'] => some 0
  | c :: rest =>
      if c = '0' then none
      else
        match charDigit? c with
        | some d => digitsVal rest d
        | none => none

/-- JavaScript's `parseInt(mark, 10)` composed with the canonicity
check `num.toString() === mark` the source applies: only a canonical
decimal (optionally negative, never `-0`, no leading zeros) integer
string counts as a move number; any other token is a plain mark.
(`parseInt` inputs that are not canonical — `"12a"`, `" 7"`, `"+7"`,
`"007"` — fail the source's roundtrip check and are plain marks there
too.) -/
def parseCanonicalInt (mark : String) : Option Int :=
  match mark.data with
  | '-' :: rest =>
      match parseCanonicalNatChars rest with
      | some n => if n = 0 then none else some (-(n : Int))
      | none => none
  | l =>
      match parseCanonicalNatChars l with
      | some n => some (n : Int)
      | none => none

/-- The numbered-mark extraction at the top of `buildMoveSequence`:
positive canonical numbers only, each at a single board position. -/
def extractNumberedMarks : List (String × List Pos) → Except String (List (Nat × Pos))
  | [] => .ok []
  | (mark, coordinates) :: rest =>
      match parseCanonicalInt mark with
      | some num =>
          if num ≤ 0 then .error "Move numbers must be positive"
          else if coordinates.length > 1 then
            .error "Move number appears at multiple positions"
          else
            match extractNumberedMarks rest with
            | .error e => .error e
            | .ok r => .ok ((num.toNat, coordinates.headD dummyCoord) :: r)
      | none => extractNumberedMarks rest

/-- The constructor's validation of the `moves` reference table: move
number and referenced number must be positive, and no move may
reference itself. -/
def validateMovesConfig : List (Int × Int) → Except String (List (Nat × Nat))
  | [] => .ok []
  | (moveNum, refMoveNum) :: rest =>
      if moveNum ≤ 0 then .error "Invalid move number in moves config"
      else if refMoveNum ≤ 0 then .error "Invalid reference move number"
      else if moveNum == refMoveNum then .error "Move cannot reference itself"
      else
        match validateMovesConfig rest with
        | .error e => .error e
        | .ok r => .ok ((moveNum.toNat, refMoveNum.toNat) :: r)

/-- The sorted move numbers must be exactly `1, 2, 3, ...`. -/
def consecutiveCheck : List Nat → Nat → Except String Unit
  | [], _ => .ok ()
  | actual :: rest, expected =>
      if actual == expected then consecutiveCheck rest (expected + 1)
      else .error "Move numbers must be consecutive starting from 1"

/-- `buildMoveSequence`'s `resolveCoordinate`: board-present numbers
resolve directly; reference-table numbers follow the chain, tracking
visited numbers against cycles and rejecting references to an
equal-or-later move.  (The source also memoizes resolved coordinates;
the memo caches exactly the values this pure computation returns, so it
is dropped.) -/
def resolveCoordinate (boardCoordinates : List (Nat × Pos)) (movesMap : List (Nat × Nat))
    (moveNum : Nat) (visited : List Nat) : Except String Pos :=
  if visited.contains moveNum then
    .error "Circular reference detected in moves config"
  else
    match boardCoordinates.lookup moveNum with
    | some coord => .ok coord
    | none =>
        match movesMap.lookup moveNum with
        | some refMoveNum =>
            if refMoveNum ≥ moveNum then
              .error "references must point to earlier moves"
            else
              resolveCoordinate boardCoordinates movesMap refMoveNum (moveNum :: visited)
        | none => .error "Move has no coordinate"
termination_by moveNum
decreasing_by omega

/-- The outer loop `for (const moveNum of sortedMoveNumbers)
resolveCoordinate(moveNum)`: resolve every move number in order,
propagating the first error, and pair each with its coordinate. -/
def resolveAll (boardCoordinates : List (Nat × Pos)) (movesMap : List (Nat × Nat)) :
    List Nat → Except String (List (Nat × Pos))
  | [] => .ok []
  | moveNum :: rest =>
      match resolveCoordinate boardCoordinates movesMap moveNum [] with
      | .error e => .error e
      | .ok coord =>
          match resolveAll boardCoordinates movesMap rest with
          | .error e => .error e
          | .ok r => .ok ((moveNum, coord) :: r)

/-- `ReplayDiagram.buildMoveSequence`.  The numeric sort
`.sort((a, b) => a - b)` is modelled by insertion sort: on the
deduplicated key list both produce the unique ascending arrangement. -/
def buildMoveSequence (otherMarks : List (String × List Pos)) (startColor : GoColor)
    (movesMap : List (Nat × Nat)) : Except String (List ParsedMove) :=
  match extractNumberedMarks otherMarks with
  | .error e => .error e
  | .ok numberedMarks =>
      let boardCoordinates := numberedMarks
      let allMoveNumbers := (numberedMarks.map (·.1) ++ movesMap.map (·.1)).dedup
      if allMoveNumbers.length == 0 then
        .error "Replay diagram must have at least one numbered move"
      else
        let sortedMoveNumbers := allMoveNumbers.insertionSort (· ≤ ·)
        match consecutiveCheck sortedMoveNumbers 1 with
        | .error e => .error e
        | .ok _ =>
            match resolveAll boardCoordinates movesMap sortedMoveNumbers with
            | .error e => .error e
            | .ok resolved =>
                .ok (resolved.map
                  (fun mc =>
                    { moveNumber := mc.1
                      coordinate := mc.2
                      color := if mc.1 % 2 == 1 then startColor else startColor.opposite }))

/-- The loop of `ReplayDiagram.rebuildBoard`. -/
def replayFold : Board × Nat × Nat → List ParsedMove → Except String (Board × Nat × Nat)
  | acc, [] => .ok acc
  | (board, whiteCaptured, blackCaptured), move :: rest =>
      match addMove board ⟨move.coordinate, move.color⟩ with
      | .error e => .error e
      | .ok board2 =>
          let captures := countCapturesFromDiff board board2
          replayFold
            (board2, whiteCaptured + captures.whiteCaptured,
              blackCaptured + captures.blackCaptured) rest

/-- `ReplayDiagram.rebuildBoard`, as run by every navigation action:
rebuild the board and capture counts from scratch by replaying moves
`0..currentMoveIndex`.  Any error comes from `addMove`. -/
def rebuildReplay (initialBoard : Board) (moveSequence : List ParsedMove)
    (currentMoveIndex : Int) : Except String (Board × Nat × Nat) :=
  replayFold (initialBoard, 0, 0) (moveSequence.take (currentMoveIndex + 1).toNat)

/-- `ReplayDiagram.goToMove`: set the cursor, rebuild from scratch. -/
def replayGoToMove (initialBoard : Board) (moveSequence : List ParsedMove)
    (index : Int) : Except String (Board × Nat × Nat) :=
  rebuildReplay initialBoard moveSequence index

/-! ## Freeplay diagram (`FreeplayDiagram.ts`)

A linear move/pass history with an undo/redo cursor
(`currentMoveIndex`, −1 before any move); every cursor movement rebuilds
board, capture counts, ko point and turn from scratch
(`rebuildBoard`). -/

inductive ColorMode where
  | black
  | white
  | alternate
deriving DecidableEq, Repr

inductive HistoryEntry where
  | move (m : GoMove)
  | pass (color : GoColor)
deriving DecidableEq, Repr

structure FreeplayState where
  initialBoard : Board
  rowCount : Nat
  columnCount : Nat
  colorMode : ColorMode
  toPlay : Option GoColor
  ignoreKo : Bool
  history : List HistoryEntry
  currentMoveIndex : Int
  currentBoard : Board
  isBlackTurn : Bool
  whiteCaptured : Nat
  blackCaptured : Nat
  koPoint : Option Pos
deriving DecidableEq

/-- The `FreeplayDiagram` constructor after board/config parsing: empty
history, cursor at −1, initial turn from the one-time `to-play`
override, else from the color mode. -/
def freeplayInit (board : Board) (rowCount columnCount : Nat) (colorMode : ColorMode)
    (toPlay : Option GoColor) (ignoreKo : Bool) : FreeplayState :=
  { initialBoard := board
    rowCount := rowCount
    columnCount := columnCount
    colorMode := colorMode
    toPlay := toPlay
    ignoreKo := ignoreKo
    history := []
    currentMoveIndex := -1
    currentBoard := board
    isBlackTurn :=
      match toPlay with
      | some c => c == .black
      | none => colorMode != .white
    whiteCaptured := 0
    blackCaptured := 0
    koPoint := none }

/-- What `rebuildBoard` computes and installs. -/
structure RebuildOut where
  board : Board
  whiteCaptured : Nat
  blackCaptured : Nat
  isBlackTurn : Bool
  koPoint : Option Pos
deriving Repr

/-- The loop state of `rebuildBoard`: current board, capture counts,
the board before the last move and the last move itself (for the ko
derivation; a pass clears the last move). -/
structure RebuildAcc where
  board : Board
  whiteCaptured : Nat
  blackCaptured : Nat
  preBoard : Board
  lastMove : Option GoMove

def rebuildFold (acc : RebuildAcc) : List HistoryEntry → Except String RebuildAcc
  | [] => .ok acc
  | .move m :: rest =>
      match addMove acc.board m with
      | .error e => .error e
      | .ok board2 =>
          let captures := countCapturesFromDiff acc.board board2
          rebuildFold
            { board := board2
              whiteCaptured := acc.whiteCaptured + captures.whiteCaptured
              blackCaptured := acc.blackCaptured + captures.blackCaptured
              preBoard := acc.board
              lastMove := some m } rest
  | .pass _ :: rest => rebuildFold { acc with lastMove := none } rest

/-- The turn derivation at the end of `rebuildBoard`: fixed modes force
their color; alternate mode toggles from the entry under the cursor
(black before any move). -/
def turnFromHistory (colorMode : ColorMode) (history : List HistoryEntry)
    (currentMoveIndex : Int) : Except String Bool :=
  match colorMode with
  | .black => .ok true
  | .white => .ok false
  | .alternate =>
      if currentMoveIndex = -1 then .ok true
      else
        match history.get? currentMoveIndex.toNat with
        | some lastEntry =>
            let lastColor := match lastEntry with | .move m => m.color | .pass c => c
            .ok (lastColor == GoColor.white)
        | none => .error "cursor out of history range"

/-- `FreeplayDiagram.rebuildBoard` as a function of the fields it
reads: replay `history[0..currentMoveIndex]` from the initial board,
derive the ko point from the last (non-pass) move, and derive the turn
from the color mode and the entry under the cursor. -/
def recomputeCore (initialBoard : Board) (colorMode : ColorMode) (ignoreKo : Bool)
    (history : List HistoryEntry) (currentMoveIndex : Int) :
    Except String RebuildOut :=
  match rebuildFold
      { board := initialBoard, whiteCaptured := 0, blackCaptured := 0
        preBoard := initialBoard, lastMove := none }
      (history.take (currentMoveIndex + 1).toNat) with
  | .error e => .error e
  | .ok acc =>
      match turnFromHistory colorMode history currentMoveIndex with
      | .error e => .error e
      | .ok isBlackTurn =>
          .ok { board := acc.board
                whiteCaptured := acc.whiteCaptured
                blackCaptured := acc.blackCaptured
                isBlackTurn := isBlackTurn
                koPoint :=
                  match acc.lastMove with
                  | some m => if !ignoreKo then followupKo acc.preBoard m else none
                  | none => none }

def applyRecompute (s : FreeplayState) (out : RebuildOut) : FreeplayState :=
  { s with currentBoard := out.board
           whiteCaptured := out.whiteCaptured
           blackCaptured := out.blackCaptured
           isBlackTurn := out.isBlackTurn
           koPoint := out.koPoint }

def freeplayRebuild (s : FreeplayState) : Except String FreeplayState :=
  match recomputeCore s.initialBoard s.colorMode s.ignoreKo s.history s.currentMoveIndex with
  | .error e => .error e
  | .ok out => .ok (applyRecompute s out)

/-- `FreeplayDiagram.undo`. -/
def freeplayUndo (s : FreeplayState) : Except String FreeplayState :=
  if s.currentMoveIndex ≥ 0 then
    freeplayRebuild { s with currentMoveIndex := s.currentMoveIndex - 1 }
  else .ok s

/-- `FreeplayDiagram.redo`. -/
def freeplayRedo (s : FreeplayState) : Except String FreeplayState :=
  if s.currentMoveIndex < (s.history.length : Int) - 1 then
    freeplayRebuild { s with currentMoveIndex := s.currentMoveIndex + 1 }
  else .ok s

/-- `FreeplayDiagram.pass`: truncate forward history, append a pass,
advance the cursor, toggle the turn in alternate mode only. -/
def freeplayPass (s : FreeplayState) : FreeplayState :=
  let color : GoColor := if s.isBlackTurn then .black else .white
  { s with history := s.history.take (s.currentMoveIndex + 1).toNat ++ [.pass color]
           currentMoveIndex := s.currentMoveIndex + 1
           isBlackTurn :=
             if s.colorMode = .alternate then !s.isBlackTurn else s.isBlackTurn }

/-- `FreeplayDiagram.reset`. -/
def freeplayReset (s : FreeplayState) : FreeplayState :=
  { s with history := []
           currentMoveIndex := -1
           currentBoard := s.initialBoard
           isBlackTurn :=
             match s.toPlay with
             | some c => c == .black
             | none => s.colorMode != .white
           whiteCaptured := 0
           blackCaptured := 0
           koPoint := none }

/-- The freeplay board-click handler (the SVG listener in `render`,
after screen-to-board conversion): bounds check, silent ko rejection,
silent illegal-move rejection; a legal move truncates forward history,
is appended, and triggers a rebuild. -/
def freeplayClick (s : FreeplayState) (coord : Pos) : Except String FreeplayState :=
  if coord.1 < s.rowCount && coord.2 < s.columnCount then
    let color : GoColor := if s.isBlackTurn then .black else .white
    let move : GoMove := ⟨coord, color⟩
    if !s.ignoreKo && (match s.koPoint with | some k => decide (coord = k) | none => false) then
      -- Silently ignore ko violation
      .ok s
    else if isLegalMove s.currentBoard move then
      freeplayRebuild
        { s with history := s.history.take (s.currentMoveIndex + 1).toNat ++ [.move move]
                 currentMoveIndex := s.currentMoveIndex + 1 }
    else
      -- Silently ignore illegal moves
      .ok s
  else
    -- Silently ignore clicks outside bounds
    .ok s

inductive FreeplayAction where
  | click (c : Pos)
  | undo
  | redo
  | pass
  | reset

def freeplayStep (s : FreeplayState) : FreeplayAction → Except String FreeplayState
  | .click c => freeplayClick s c
  | .undo => freeplayUndo s
  | .redo => freeplayRedo s
  | .pass => .ok (freeplayPass s)
  | .reset => .ok (freeplayReset s)

/-- States a freeplay diagram can actually be in: a constructor state,
or any state produced from one by clicks, undo, redo, pass and reset. -/
inductive FreeplayReachable : FreeplayState → Prop where
  | init (board : Board) (rowCount columnCount : Nat) (colorMode : ColorMode)
      (toPlay : Option GoColor) (ignoreKo : Bool) :
      FreeplayReachable (freeplayInit board rowCount columnCount colorMode toPlay ignoreKo)
  | step (s : FreeplayState) (a : FreeplayAction) (s' : FreeplayState) :
      FreeplayReachable s → freeplayStep s a = .ok s' → FreeplayReachable s'

/-! ## Claim C5: the capture accountant -/

/-- The spec's reading of the capture diff: the number of coordinates
that hold a white stone on `before` and are empty on `after`. -/
def specWhiteCaptured (before after : Board) : Nat :=
  ((allCoords before).filter
    (fun c => getCell before c == some GoColor.white && getCell after c == none)).length

/-- The spec's reading for black. -/
def specBlackCaptured (before after : Board) : Nat :=
  ((allCoords before).filter
    (fun c => getCell before c == some GoColor.black && getCell after c == none)).length

lemma countCaptures_foldl (l : List (Pos × GoColor)) (acc : CapCount) :
    l.foldl
      (fun acc entry =>
        match entry.2 with
        | .white => { acc with whiteCaptured := acc.whiteCaptured + 1 }
        | .black => { acc with blackCaptured := acc.blackCaptured + 1 })
      acc =
    { whiteCaptured := acc.whiteCaptured + l.countP (fun e => e.2 == GoColor.white)
      blackCaptured := acc.blackCaptured + l.countP (fun e => e.2 == GoColor.black) } := by
  induction l generalizing acc with
  | nil => simp [List.countP_nil]
  | cons e rest ih =>
      cases acc with
      | mk w b =>
          cases h : e.2 with
          | white => simp [List.foldl_cons, ih, List.countP_cons, h]; omega
          | black => simp [List.foldl_cons, ih, List.countP_cons, h]; omega

lemma difference_countP (b1 b2 : Board) (col : GoColor) (l : List Pos) :
    (l.filterMap (diffEntry b1 b2)).countP (fun e => e.2 == col) =
    l.countP (fun c => getCell b1 c == some col && getCell b2 c == none) := by
  induction l with
  | nil => simp
  | cons c rest ih =>
      rw [List.filterMap_cons]
      cases h1 : getCell b1 c with
      | none =>
          have he : diffEntry b1 b2 c = none := by simp [diffEntry, h1]
          rw [he, ih, List.countP_cons]
          simp [h1]
      | some col' =>
          by_cases h2 : getCell b2 c = none
          · have he : diffEntry b1 b2 c = some (c, col') := by simp [diffEntry, h1, h2]
            rw [he, List.countP_cons, List.countP_cons, ih]
            by_cases h3 : col' = col
            · subst h3; simp [h1, h2]
            · have hne : ¬(col' == col) = true := by simp [h3]
              have hne2 : ¬(some col' == some col) = true := by simp [h3]
              simp [h1, h2, hne, hne2]
          · have he : diffEntry b1 b2 c = none := by simp [diffEntry, h1, h2]
            rw [he, ih, List.countP_cons]
            simp [h1, h2]

/-- C5 — confirmed.  `countCapturesFromDiff(before, after)` returns
exactly the number of coordinates white on `before` and empty on
`after` as `whiteCaptured`, and the number black on `before` and empty
on `after` as `blackCaptured`, for every pair of board snapshots; being
a plain function of its two board arguments, it is pure. -/
theorem countCapturesFromDiff_spec (before after : Board) :
    countCapturesFromDiff before after =
      { whiteCaptured := specWhiteCaptured before after
        blackCaptured := specBlackCaptured before after } := by
  unfold countCapturesFromDiff difference specWhiteCaptured specBlackCaptured
  rw [countCaptures_foldl, difference_countP, difference_countP]
  simp [List.countP_eq_length_filter]

theorem countCapturesFromDiff_spec_witness :
    countCapturesFromDiff (boardWith 2 [((0, 0), .white), ((0, 1), .black)])
        (boardWith 2 [((0, 1), .black), ((1, 0), .black)]) =
      { whiteCaptured :=
          specWhiteCaptured (boardWith 2 [((0, 0), .white), ((0, 1), .black)])
            (boardWith 2 [((0, 1), .black), ((1, 0), .black)])
        blackCaptured :=
          specBlackCaptured (boardWith 2 [((0, 0), .white), ((0, 1), .black)])
            (boardWith 2 [((0, 1), .black), ((1, 0), .black)]) } :=
  countCapturesFromDiff_spec _ _

/-! ## Claim C1: silent rejection of ko and illegal clicks -/

/-- C1 — counterexample.  The claim asserts that an otherwise illegal
click (for example on an occupied point) during play raises no error
and changes no state, for problem diagrams as well.  But
`ProblemDiagram.handleUserMove` has no legality guard: a freshly
constructed problem diagram (ko enforcement active) whose board holds a
black stone at (1,1) lets a click there reach `addMove`, which throws. -/
theorem problem_occupied_click_throws :
    (problemInit (boardWith 3 [((1, 1), GoColor.black)]) GoColor.black false []).isOk = true ∧
    (problemInit (boardWith 3 [((1, 1), GoColor.black)]) GoColor.black false [] >>=
      fun s => handleUserMove s (1, 1)).isOk = false :=
  ⟨rfl, rfl⟩

/-- C1 — amended.  A click on the active ko point (ko enforcement
active, ko point set) is silently ignored with no error and no state
change in both the problem and the freeplay handler; in the freeplay
handler any illegal click is likewise silently ignored; the problem
handler, however, has no legality guard, so an otherwise illegal click
(such as on an occupied point) raises an error there (see the
counterexample). -/
theorem ko_and_illegal_clicks_silently_ignored :
    (∀ (s : ProblemState) (k : Pos), s.ignoreKo = false → s.koPoint = some k →
      handleUserMove s k = .ok (s, false)) ∧
    (∀ (s : FreeplayState) (k : Pos), s.ignoreKo = false → s.koPoint = some k →
      freeplayClick s k = .ok s) ∧
    (∀ (s : FreeplayState) (c : Pos),
      isLegalMove s.currentBoard ⟨c, if s.isBlackTurn then .black else .white⟩ = false →
      freeplayClick s c = .ok s) := by
  refine ⟨?_, ?_, ?_⟩
  · intro s k h1 h2
    simp [handleUserMove, h1, h2]
  · intro s k h1 h2
    by_cases hb : (k.1 < s.rowCount && k.2 < s.columnCount) = true
    · simp [freeplayClick, h1, h2, hb]
    · simp [freeplayClick, hb]
  · intro s c hleg
    by_cases hb : (c.1 < s.rowCount && c.2 < s.columnCount) = true
    · by_cases hko :
        (!s.ignoreKo && (match s.koPoint with
          | some k => decide (c = k) | none => false)) = true
      · simp [freeplayClick, hb, hko]
      · simp [freeplayClick, hb, hko, hleg]
    · simp [freeplayClick, hb]

/-- A problem play state with an active ko at (1,0): white has just
recaptured is imminent; used to instantiate the amended claim. -/
def koProblemState : ProblemState :=
  { initialBoard := emptyBoard 3
    toPlay := .black
    ignoreKo := false
    sequenceTree := .nil
    result := .incomplete
    currentTree := .nil
    currentWildcard := .none
    playedMoves := []
    currentBoard := boardWith 3 [((0, 1), .black), ((1, 0), .black), ((0, 0), .white)]
    isBlackTurn := false
    whiteCaptured := 0
    blackCaptured := 0
    koPoint := some (1, 0) }

/-- A freeplay play state with an active ko at (1,0), and an occupied
point at (0,0). -/
def koFreeplayState : FreeplayState :=
  { initialBoard := emptyBoard 3
    rowCount := 3
    columnCount := 3
    colorMode := .alternate
    toPlay := none
    ignoreKo := false
    history := []
    currentMoveIndex := -1
    currentBoard := boardWith 3 [((0, 1), .black), ((1, 0), .black), ((0, 0), .white)]
    isBlackTurn := false
    whiteCaptured := 0
    blackCaptured := 0
    koPoint := some (1, 0) }

theorem ko_and_illegal_clicks_silently_ignored_witness :
    handleUserMove koProblemState (1, 0) = .ok (koProblemState, false) ∧
    freeplayClick koFreeplayState (1, 0) = .ok koFreeplayState ∧
    freeplayClick koFreeplayState (0, 0) = .ok koFreeplayState :=
  ⟨ko_and_illegal_clicks_silently_ignored.1 koProblemState (1, 0) rfl rfl,
   ko_and_illegal_clicks_silently_ignored.2.1 koFreeplayState (1, 0) rfl rfl,
   ko_and_illegal_clicks_silently_ignored.2.2 koFreeplayState (0, 0) rfl⟩

/-! ## Claim C3: the deferred opponent reply after a reset

The spec requires a deferred reply whose tree cursor has been
superseded — in particular by `reset()` — to be a no-op.  The source
schedules `() => this.playComputerResponse()` with no generation or
cursor comparison: the callback reads whatever `currentTree` holds at
fire time.  After a reset the cursor is the tree root again, so the
stale callback plays a "computer" move out of the root. -/

/-- The single declared solution `a > b > c` (player a, computer b,
player c) at coordinates (0,0), (0,1), (0,2) on an empty 3×3 board. -/
def c3seqs : List (List PathItem × Bool) :=
  [([.coord (0, 0), .coord (0, 1), .coord (0, 2)], true)]

/-- The sequence tree the constructor builds for `c3seqs`. -/
def c3tree : SequenceTree :=
  .cons (0, 0)
    (.mk .incomplete
      (.cons (0, 1)
        (.mk .incomplete
          (.cons (0, 2) (.mk .success .nil .none) .nil)
          .none)
        .nil)
      .none)
    .nil

lemma c3tree_eq : buildSequenceTree c3seqs = c3tree := by
  simp [buildSequenceTree, c3seqs, c3tree, addSequence, buildLoopState, flaggedRev,
    buildStep, mergeSequenceTrees, mget, mset, tsize]

/-- The constructed problem state for `c3seqs`. -/
def c3s0 : ProblemState :=
  { initialBoard := emptyBoard 3
    toPlay := .black
    ignoreKo := false
    sequenceTree := c3tree
    result := .incomplete
    currentTree := c3tree
    currentWildcard := .none
    playedMoves := []
    currentBoard := emptyBoard 3
    isBlackTurn := true
    whiteCaptured := 0
    blackCaptured := 0
    koPoint := none }

lemma c3init_eq : problemInit (emptyBoard 3) .black false c3seqs = .ok c3s0 := by
  have hv : c3seqs.forM (fun seq => validateSequence (emptyBoard 3) .black seq.1) =
      .ok () := rfl
  simp [problemInit, hv, c3tree_eq, c3s0, bind, Except.bind, rootWildcardOf, c3tree,
    pure, Except.pure, SequenceNode.wildcardChild]

/-- The user move at (0,0), after which a computer reply is scheduled,
then a reset, then the stale callback firing (any random draw; the
cursor has one child). -/
def c3afterUserMove : Except String (ProblemState × Bool) := handleUserMove c3s0 (0, 0)

/-- C3 — the code evaluated at the failing input.  Playing the on-tree
move (0,0) schedules a deferred reply (`scheduled = true`); after
`reset()` the stale callback is *not* a no-op: it mutates the board,
the played-move list, the turn and the tree cursor of the reset state
(it plays (0,0) as a computer move out of the recomputed root). -/
theorem stale_reply_after_reset_not_noop :
    (match c3afterUserMove with
      | .ok (s1, scheduled) =>
          let s2 := problemReset s1
          match playComputerResponse s2 0 with
          | .ok s3 =>
              scheduled = true ∧ s3.currentBoard ≠ s2.currentBoard ∧
                s3.playedMoves ≠ s2.playedMoves ∧ s3.isBlackTurn ≠ s2.isBlackTurn
          | .error _ => False
      | .error _ => False) := by
  have h1 : c3afterUserMove =
      .ok ({ c3s0 with
              playedMoves := [⟨(0, 0), .black⟩]
              currentBoard := boardWith 3 [((0, 0), .black)]
              isBlackTurn := false
              result := .incomplete
              currentTree := .cons (0, 1)
                (.mk .incomplete (.cons (0, 2) (.mk .success .nil .none) .nil) .none) .nil
              currentWildcard := .none }, true) := by rfl
  rw [h1]
  refine ⟨rfl, ?_, ?_, ?_⟩ <;> decide

/-! ## Claims C2 and C4: the leaf invariant of the sequence tree

The spec's invariant: a node with any children or a wildcardChild is
always Incomplete; Success/Failure appear only on childless,
wildcard-free leaves.  `goodN` is that invariant checked recursively
over a whole (sub)tree; `weakGoodN` is its children half only (no
condition on wildcardChild). -/

mutual
/-- The full leaf invariant, recursively: a non-`incomplete` node has
no children and no wildcardChild. -/
def goodN : SequenceNode → Bool
  | .mk r c w =>
      (decide (r = .incomplete) || (decide (tsize c = 0) && isNoneW w)) &&
        goodT c && goodW w

def goodT : SequenceTree → Bool
  | .nil => true
  | .cons _ n rest => goodN n && goodT rest

def goodW : WildcardSlot → Bool
  | .none => true
  | .some n => goodN n
end

mutual
/-- The children half of the invariant, recursively: a node with
non-empty children is `incomplete` (nothing required of a node that
only has a wildcardChild). -/
def weakGoodN : SequenceNode → Bool
  | .mk r c w =>
      (decide (r = .incomplete) || decide (tsize c = 0)) && weakGoodT c && weakGoodW w

def weakGoodT : SequenceTree → Bool
  | .nil => true
  | .cons _ n rest => weakGoodN n && weakGoodT rest

def weakGoodW : WildcardSlot → Bool
  | .none => true
  | .some n => weakGoodN n
end

/-- The two paths `a` (a solution) and `*>b` (a failing sequence): a
declared root-level wildcard applied to a tree whose root is already a
Success leaf. -/
def c24seqs : List (List PathItem × Bool) :=
  [([.coord (0, 0)], true), ([.star, .coord (1, 1)], false)]

/-- What the constructor builds for `c24seqs`: the root node keeps its
`success` result but now carries a wildcardChild. -/
def c24tree : SequenceTree :=
  .cons (0, 0)
    (.mk .success .nil
      (.some (.mk .incomplete (.cons (1, 1) (.mk .failure .nil .none) .nil) .none)))
    .nil

lemma c24tree_eq : buildSequenceTree c24seqs = c24tree := by
  simp [buildSequenceTree, c24seqs, c24tree, addSequence, buildLoopState, flaggedRev,
    buildStep, mergeSequenceTrees, mget, mset, tsize, applyWildcardToTree,
    SequenceNode.result, SequenceNode.children, SequenceNode.wildcardChild]

/-- C2 — counterexample.  With declared paths `a` (solution) and `*>b`
(sequence) — a configuration the constructor accepts — the built tree's
root node has result `success` *and* a defined wildcardChild: applying
a root-level wildcard to an existing root leaf violates the claimed
invariant. -/
theorem success_leaf_with_wildcard_child :
    (problemInit (emptyBoard 3) GoColor.black false c24seqs).isOk = true ∧
    mget (buildSequenceTree c24seqs) (0, 0) =
      some (.mk .success .nil
        (.some (.mk .incomplete (.cons (1, 1) (.mk .failure .nil .none) .nil) .none))) := by
  constructor
  · rfl
  · rw [c24tree_eq]; rfl

/-! ### Invariant preservation through map operations and the merge -/

lemma goodN_mget (t : SequenceTree) (c : Pos) (n : SequenceNode)
    (ht : goodT t = true) (h : mget t c = some n) : goodN n = true :=
  match t, ht, h with
  | .nil, _, h => by simp [mget] at h
  | .cons c' n' rest, ht, h => by
      simp only [goodT, Bool.and_eq_true] at ht
      simp only [mget] at h
      by_cases hc : c = c'
      · rw [if_pos hc] at h; cases h; exact ht.1
      · rw [if_neg hc] at h; exact goodN_mget rest c n ht.2 h

lemma goodT_mset (t : SequenceTree) (c : Pos) (n : SequenceNode)
    (ht : goodT t = true) (hn : goodN n = true) : goodT (mset t c n) = true :=
  match t, ht with
  | .nil, _ => by simp [mset, goodT, hn]
  | .cons c' n' rest, ht => by
      simp only [goodT, Bool.and_eq_true] at ht
      by_cases hc : c = c'
      · simp [mset, hc, goodT, hn, ht.2]
      · simp [mset, hc, goodT, ht.1, goodT_mset rest c n ht.2 hn]

lemma weakGoodN_mget (t : SequenceTree) (c : Pos) (n : SequenceNode)
    (ht : weakGoodT t = true) (h : mget t c = some n) : weakGoodN n = true :=
  match t, ht, h with
  | .nil, _, h => by simp [mget] at h
  | .cons c' n' rest, ht, h => by
      simp only [weakGoodT, Bool.and_eq_true] at ht
      simp only [mget] at h
      by_cases hc : c = c'
      · rw [if_pos hc] at h; cases h; exact ht.1
      · rw [if_neg hc] at h; exact weakGoodN_mget rest c n ht.2 h

lemma weakGoodT_mset (t : SequenceTree) (c : Pos) (n : SequenceNode)
    (ht : weakGoodT t = true) (hn : weakGoodN n = true) : weakGoodT (mset t c n) = true :=
  match t, ht with
  | .nil, _ => by simp [mset, weakGoodT, hn]
  | .cons c' n' rest, ht => by
      simp only [weakGoodT, Bool.and_eq_true] at ht
      by_cases hc : c = c'
      · simp [mset, hc, weakGoodT, hn, ht.2]
      · simp [mset, hc, weakGoodT, ht.1, weakGoodT_mset rest c n ht.2 hn]

mutual
lemma goodN_weak (n : SequenceNode) (h : goodN n = true) : weakGoodN n = true :=
  match n, h with
  | .mk r c w, h => by
      simp only [goodN, Bool.and_eq_true, Bool.or_eq_true, decide_eq_true_eq] at h
      obtain ⟨⟨hcond, hc⟩, hw⟩ := h
      simp only [weakGoodN, Bool.and_eq_true, Bool.or_eq_true, decide_eq_true_eq]
      refine ⟨⟨?_, goodT_weak c hc⟩, goodW_weak w hw⟩
      rcases hcond with h' | h'
      · exact Or.inl h'
      · exact Or.inr h'.1

lemma goodT_weak (t : SequenceTree) (h : goodT t = true) : weakGoodT t = true :=
  match t, h with
  | .nil, _ => rfl
  | .cons c n rest, h => by
      simp only [goodT, Bool.and_eq_true] at h
      simp only [weakGoodT, Bool.and_eq_true]
      exact ⟨goodN_weak n h.1, goodT_weak rest h.2⟩

lemma goodW_weak (w : WildcardSlot) (h : goodW w = true) : weakGoodW w = true :=
  match w, h with
  | .none, _ => rfl
  | .some n, h => goodN_weak n h
end

/-- A merged node is good when its merged components are: if it kept
children or a wildcard it was forced `incomplete`; otherwise it is a
childless, wildcard-free leaf. -/
lemma goodN_mk_merged (r1 : PResult) (mc : SequenceTree) (mw : WildcardSlot)
    (hmc : goodT mc = true) (hmw : goodW mw = true) :
    goodN (.mk (if decide (tsize mc > 0) || !isNoneW mw then PResult.incomplete else r1)
      mc mw) = true := by
  by_cases hk : (decide (tsize mc > 0) || !isNoneW mw) = true
  · rw [if_pos hk]
    simp [goodN, hmc, hmw]
  · rw [if_neg hk]
    simp only [Bool.or_eq_true, not_or, Bool.not_eq_true, decide_eq_false_iff_not,
      Bool.not_eq_true'] at hk
    obtain ⟨hk1, hk2⟩ := hk
    simp only [goodN, Bool.and_eq_true, Bool.or_eq_true, decide_eq_true_eq]
    refine ⟨⟨Or.inr ⟨by omega, ?_⟩, hmc⟩, hmw⟩
    cases h : isNoneW mw with
    | false => exact absurd h hk2
    | true => rfl

lemma weakGoodN_mk_merged (r1 : PResult) (mc : SequenceTree) (mw : WildcardSlot)
    (hmc : weakGoodT mc = true) (hmw : weakGoodW mw = true) :
    weakGoodN (.mk (if decide (tsize mc > 0) || !isNoneW mw then PResult.incomplete else r1)
      mc mw) = true := by
  by_cases hk : (decide (tsize mc > 0) || !isNoneW mw) = true
  · rw [if_pos hk]
    simp [weakGoodN, hmc, hmw]
  · rw [if_neg hk]
    simp only [Bool.or_eq_true, not_or, Bool.not_eq_true, decide_eq_false_iff_not,
      Bool.not_eq_true'] at hk
    obtain ⟨hk1, hk2⟩ := hk
    simp only [weakGoodN, Bool.and_eq_true, Bool.or_eq_true, decide_eq_true_eq]
    exact ⟨⟨Or.inr (by omega), hmc⟩, hmw⟩

mutual
lemma merge_goodT (t1 t2 : SequenceTree) (h1 : goodT t1 = true) (h2 : goodT t2 = true) :
    goodT (mergeSequenceTrees t1 t2) = true :=
  match t2, h2 with
  | .nil, _ => by rw [mergeSequenceTrees]; exact h1
  | .cons coord node2 rest, h2 => by
      rw [mergeSequenceTrees]
      simp only [goodT, Bool.and_eq_true] at h2
      cases hm : mget t1 coord with
      | some node1 =>
          simp only [hm]
          exact merge_goodT _ rest
            (goodT_mset t1 coord _ h1
              (merge_goodN node1 node2 (goodN_mget t1 coord node1 h1 hm) h2.1))
            h2.2
      | none =>
          simp only [hm]
          exact merge_goodT _ rest (goodT_mset t1 coord node2 h1 h2.1) h2.2
termination_by treeSize t2
decreasing_by
  all_goals simp [treeSize]; omega

lemma merge_goodN (n1 n2 : SequenceNode) (h1 : goodN n1 = true) (h2 : goodN n2 = true) :
    goodN (mergeNodes n1 n2) = true :=
  match n1, n2, h1, h2 with
  | .mk r1 c1 w1, .mk r2 c2 w2, h1, h2 => by
      simp only [goodN, Bool.and_eq_true] at h1 h2
      have hmc : goodT (mergeSequenceTrees c1 c2) = true :=
        merge_goodT c1 c2 h1.1.2 h2.1.2
      rw [mergeNodes.eq_def]
      cases w1 with
      | none =>
          cases w2 with
          | none => exact goodN_mk_merged r1 _ _ hmc rfl
          | some b => exact goodN_mk_merged r1 _ _ hmc h2.2
      | some a =>
          cases w2 with
          | none => exact goodN_mk_merged r1 _ _ hmc h1.2
          | some b =>
              have hga : goodN a = true := h1.2
              have hgb : goodN b = true := h2.2
              have hd : goodT (mergeSequenceTrees (mset .nil dummyCoord a)
                  (mset .nil dummyCoord b)) = true :=
                merge_goodT _ _ (by simp [mset, goodT, hga]) (by simp [mset, goodT, hgb])
              dsimp only
              apply goodN_mk_merged r1 _ _ hmc
              cases hm : mget (mergeSequenceTrees (mset .nil dummyCoord a)
                  (mset .nil dummyCoord b)) dummyCoord with
              | some w => exact goodN_mget _ _ _ hd hm
              | none => rfl
termination_by nodeSize n2
decreasing_by
  all_goals simp [mset, treeSize, nodeSize, slotSize]
  all_goals try subst_eqs
  all_goals try simp [slotSize]
  all_goals omega
end

mutual
lemma merge_weakGoodT (t1 t2 : SequenceTree) (h1 : weakGoodT t1 = true)
    (h2 : weakGoodT t2 = true) : weakGoodT (mergeSequenceTrees t1 t2) = true :=
  match t2, h2 with
  | .nil, _ => by rw [mergeSequenceTrees]; exact h1
  | .cons coord node2 rest, h2 => by
      rw [mergeSequenceTrees]
      simp only [weakGoodT, Bool.and_eq_true] at h2
      cases hm : mget t1 coord with
      | some node1 =>
          simp only [hm]
          exact merge_weakGoodT _ rest
            (weakGoodT_mset t1 coord _ h1
              (merge_weakGoodN node1 node2 (weakGoodN_mget t1 coord node1 h1 hm) h2.1))
            h2.2
      | none =>
          simp only [hm]
          exact merge_weakGoodT _ rest (weakGoodT_mset t1 coord node2 h1 h2.1) h2.2
termination_by treeSize t2
decreasing_by
  all_goals simp [treeSize]; omega

lemma merge_weakGoodN (n1 n2 : SequenceNode) (h1 : weakGoodN n1 = true)
    (h2 : weakGoodN n2 = true) : weakGoodN (mergeNodes n1 n2) = true :=
  match n1, n2, h1, h2 with
  | .mk r1 c1 w1, .mk r2 c2 w2, h1, h2 => by
      simp only [weakGoodN, Bool.and_eq_true] at h1 h2
      have hmc : weakGoodT (mergeSequenceTrees c1 c2) = true :=
        merge_weakGoodT c1 c2 h1.1.2 h2.1.2
      rw [mergeNodes.eq_def]
      cases w1 with
      | none =>
          cases w2 with
          | none => exact weakGoodN_mk_merged r1 _ _ hmc rfl
          | some b => exact weakGoodN_mk_merged r1 _ _ hmc h2.2
      | some a =>
          cases w2 with
          | none => exact weakGoodN_mk_merged r1 _ _ hmc h1.2
          | some b =>
              have hga : weakGoodN a = true := h1.2
              have hgb : weakGoodN b = true := h2.2
              have hd : weakGoodT (mergeSequenceTrees (mset .nil dummyCoord a)
                  (mset .nil dummyCoord b)) = true :=
                merge_weakGoodT _ _ (by simp [mset, weakGoodT, hga])
                  (by simp [mset, weakGoodT, hgb])
              dsimp only
              apply weakGoodN_mk_merged r1 _ _ hmc
              cases hm : mget (mergeSequenceTrees (mset .nil dummyCoord a)
                  (mset .nil dummyCoord b)) dummyCoord with
              | some w => exact weakGoodN_mget _ _ _ hd hm
              | none => rfl
termination_by nodeSize n2
decreasing_by
  all_goals simp [mset, treeSize, nodeSize, slotSize]
  all_goals try subst_eqs
  all_goals try simp [slotSize]
  all_goals omega
end

/-! ### The build loop and the whole construction -/

/-- Every state reached by the build loop over `false`-flagged
(non-last) items keeps both carried trees fully good: a non-last node
is always `incomplete`, so it may freely carry children and a
wildcardChild. -/
lemma buildFold_false_good (iso : Bool) (xs : List PathItem)
    (st : SequenceTree × SequenceTree × Bool)
    (h1 : goodT st.1 = true) (h2 : goodT st.2.1 = true) :
    goodT (List.foldl (buildStep iso) st (xs.map (fun it => (false, it)))).1 = true ∧
    goodT (List.foldl (buildStep iso) st (xs.map (fun it => (false, it)))).2.1 = true := by
  induction xs generalizing st with
  | nil => exact ⟨h1, h2⟩
  | cons x rest ih =>
      simp only [List.map_cons, List.foldl_cons]
      apply ih
      · cases x with
        | star => simpa [buildStep] using h1
        | coord c =>
            by_cases hw : st.2.2 = true
            · simp only [buildStep, hw, if_true]
              apply goodT_mset
              · rfl
              · simp only [goodN, Bool.and_eq_true, Bool.or_eq_true, decide_eq_true_eq]
                refine ⟨⟨Or.inl (by simp), rfl⟩, ?_⟩
                by_cases hz : tsize st.1 > 0
                · rw [if_pos hz]; simp [goodW, goodN, h1]
                · rw [if_neg hz]; rfl
            · simp only [buildStep, hw, Bool.false_eq_true, if_false]
              apply goodT_mset
              · rfl
              · simp only [goodN, Bool.and_eq_true, Bool.or_eq_true, decide_eq_true_eq]
                refine ⟨⟨Or.inl (by simp), h1⟩, ?_⟩
                by_cases hz : tsize st.2.1 > 0
                · rw [if_pos hz]; simp [goodW, goodN, h2]
                · rw [if_neg hz]; rfl
      · cases x with
        | star => simpa [buildStep] using h2
        | coord c =>
            by_cases hw : st.2.2 = true
            · simp [buildStep, hw, goodT]
            · simp [buildStep, hw, goodT]

/-- The tree contributed by one declared path is fully good, and so is
the pending wildcard tree the loop carries out. -/
lemma buildLoopState_good (iso : Bool) (p : List PathItem) :
    goodT (buildLoopState iso p).1 = true ∧ goodT (buildLoopState iso p).2.1 = true := by
  unfold buildLoopState flaggedRev
  cases hp : p.reverse with
  | nil => exact ⟨rfl, rfl⟩
  | cons x xs =>
      simp only [List.foldl_cons]
      apply buildFold_false_good
      · cases x with
        | star => rfl
        | coord c => cases iso <;> exact goodT_mset .nil c _ rfl rfl
      · cases x with
        | star => rfl
        | coord c => rfl

lemma applyWildcard_weakGoodT (t : SequenceTree) (w : SequenceNode)
    (ht : weakGoodT t = true) (hw : weakGoodN w = true) :
    weakGoodT (applyWildcardToTree t w) = true :=
  match t, ht with
  | .nil, _ => rfl
  | .cons c n rest, ht => by
      simp only [weakGoodT, Bool.and_eq_true] at ht
      have hn := ht.1
      cases n with
      | mk r nc nw =>
          simp only [applyWildcardToTree, SequenceNode.result, SequenceNode.children,
            weakGoodT, Bool.and_eq_true]
          simp only [weakGoodN, Bool.and_eq_true] at hn
          refine ⟨?_, applyWildcard_weakGoodT rest w ht.2 hw⟩
          simp only [weakGoodN, Bool.and_eq_true]
          exact ⟨hn.1, hw⟩

/-- The children half of the invariant survives the whole construction,
root-level wildcards included. -/
lemma buildSequenceTree_weakGood (seqs : List (List PathItem × Bool)) :
    weakGoodT (buildSequenceTree seqs) = true := by
  suffices h : ∀ acc, weakGoodT acc = true →
      weakGoodT (List.foldl addSequence acc seqs) = true from h .nil rfl
  induction seqs with
  | nil => intro acc hacc; exact hacc
  | cons seq rest ih =>
      intro acc hacc
      obtain ⟨path, iso⟩ := seq
      simp only [List.foldl_cons]
      apply ih
      unfold addSequence
      dsimp only
      by_cases hs : path.head? = some PathItem.star
      · rw [if_pos hs]
        apply applyWildcard_weakGoodT _ _ hacc
        have hb := (buildLoopState_good iso (path.drop 1)).1
        simp only [weakGoodN, Bool.and_eq_true, Bool.or_eq_true, decide_eq_true_eq]
        exact ⟨⟨Or.inl (by simp), goodT_weak _ hb⟩, rfl⟩
      · rw [if_neg hs]
        exact merge_weakGoodT _ _ hacc (goodT_weak _ (buildLoopState_good iso path).1)

/-- Without root-level wildcard paths the construction is merges only,
and the full invariant survives. -/
lemma buildSequenceTree_good (seqs : List (List PathItem × Bool))
    (hns : ∀ pb ∈ seqs, pb.1.head? ≠ some PathItem.star) :
    goodT (buildSequenceTree seqs) = true := by
  suffices h : ∀ acc, goodT acc = true →
      goodT (List.foldl addSequence acc seqs) = true from h .nil rfl
  induction seqs with
  | nil => intro acc hacc; exact hacc
  | cons seq rest ih =>
      intro acc hacc
      have hseq := hns seq (List.mem_cons_self _ _)
      have hrest : ∀ pb ∈ rest, pb.1.head? ≠ some PathItem.star :=
        fun pb hpb => hns pb (List.mem_cons_of_mem _ hpb)
      obtain ⟨path, iso⟩ := seq
      simp only [List.foldl_cons]
      apply ih hrest
      unfold addSequence
      dsimp only
      rw [if_neg hseq]
      exact merge_goodT _ _ hacc (buildLoopState_good iso path).1

/-- C2 — amended.  Every node of the sequence tree the constructor
builds satisfies the children half of the invariant (non-empty children
force `incomplete`); when no declared path begins with a wildcard the
full invariant holds (a defined wildcardChild also forces
`incomplete`).  Applying a declared root-level wildcard to an existing
root leaf, however, attaches a wildcardChild while keeping the leaf's
Success/Failure result (see the counterexample). -/
theorem sequence_tree_leaf_invariant :
    (∀ seqs : List (List PathItem × Bool), weakGoodT (buildSequenceTree seqs) = true) ∧
    (∀ seqs : List (List PathItem × Bool),
      (∀ pb ∈ seqs, pb.1.head? ≠ some PathItem.star) →
      goodT (buildSequenceTree seqs) = true) :=
  ⟨buildSequenceTree_weakGood, buildSequenceTree_good⟩

theorem sequence_tree_leaf_invariant_witness :
    weakGoodT (buildSequenceTree c24seqs) = true ∧
    goodT (buildSequenceTree c3seqs) = true :=
  ⟨sequence_tree_leaf_invariant.1 c24seqs,
   sequence_tree_leaf_invariant.2 c3seqs (by decide)⟩

/-! ### Claim C4: stickiness of Success -/

lemma rootWildcardOf_good (t : SequenceTree) (ht : goodT t = true) :
    goodW (rootWildcardOf t) = true :=
  match t, ht with
  | .nil, _ => rfl
  | .cons c n rest, ht => by
      simp only [goodT, Bool.and_eq_true] at ht
      cases n with
      | mk r nc nw =>
          simp only [rootWildcardOf, SequenceNode.wildcardChild]
          cases nw with
          | none => exact rootWildcardOf_good rest ht.2
          | some w =>
              have := ht.1
              simp only [goodN, Bool.and_eq_true] at this
              exact this.2

lemma entries_good (t : SequenceTree) (ht : goodT t = true) :
    ∀ e ∈ entries t, goodN e.2 = true :=
  match t, ht with
  | .nil, _ => by intro e he; simp [entries] at he
  | .cons c n rest, ht => by
      simp only [goodT, Bool.and_eq_true] at ht
      intro e he
      simp only [entries, List.mem_cons] at he
      rcases he with he | he
      · rw [he]; exact ht.1
      · exact entries_good rest ht.2 e he

lemma getD_mem_or_default {α : Type _} (l : List α) (i : Nat) (d : α) :
    l.getD i d ∈ l ∨ l.getD i d = d := by
  by_cases hi : i < l.length
  · left
    rw [List.getD_eq_getElem l d hi]
    exact l.getElem_mem hi
  · right
    rw [List.getD_eq_getElem?_getD, List.getElem?_eq_none (by omega)]
    rfl

/-- The play-state invariant maintained by the problem engine when its
tree was built from paths without root-level wildcards: both cursor
components are fully good, the (immutable) built tree is fully good,
and a decided result means the cursor is exhausted. -/
def ProblemInv (s : ProblemState) : Prop :=
  goodT s.sequenceTree = true ∧
  goodT s.currentTree = true ∧
  goodW s.currentWildcard = true ∧
  (s.result ≠ .incomplete → s.currentTree = .nil ∧ s.currentWildcard = .none)

lemma handleUserMove_inv (s : ProblemState) (c : Pos) (s' : ProblemState) (b : Bool)
    (hinv : ProblemInv s) (h : handleUserMove s c = .ok (s', b)) :
    ProblemInv s' ∧ (s.result ≠ .incomplete → s'.result = s.result) := by
  obtain ⟨hseq, hct, hcw, hres⟩ := hinv
  unfold handleUserMove at h
  by_cases hko : (!s.ignoreKo &&
      (match s.koPoint with | some k => decide (c = k) | none => false)) = true
  · rw [if_pos hko] at h
    injection h with h
    injection h with h1 h2
    subst h1
    exact ⟨⟨hseq, hct, hcw, hres⟩, fun _ => rfl⟩
  · rw [if_neg hko] at h
    dsimp only at h
    cases ha : addMove s.currentBoard ⟨c, if s.isBlackTurn then .black else .white⟩ with
    | error e => rw [ha] at h; cases h
    | ok newBoard =>
        rw [ha] at h
        cases hm : mget s.currentTree c with
        | some n =>
            rw [hm] at h
            dsimp only at h
            injection h with h
            injection h with h1 h2
            subst h1
            have hn : goodN n = true := goodN_mget _ _ _ hct hm
            cases n with
            | mk nr nc nw =>
                simp only [goodN, Bool.and_eq_true, Bool.or_eq_true,
                  decide_eq_true_eq] at hn
                constructor
                · refine ⟨hseq, hn.1.2, hn.2, ?_⟩
                  intro hr
                  simp only [SequenceNode.result, SequenceNode.children,
                    SequenceNode.wildcardChild] at hr ⊢
                  rcases hn.1.1 with h' | h'
                  · exact absurd h' hr
                  · constructor
                    · cases nc with
                      | nil => rfl
                      | cons _ _ _ => simp [tsize] at h'
                    · cases nw with
                      | none => rfl
                      | some _ => simp [isNoneW] at h'
                · intro hne
                  exact absurd (hres hne).1.symm (by
                    intro hnil
                    rw [← hnil] at hm
                    simp [mget] at hm)
        | none =>
            rw [hm] at h
            cases hw : s.currentWildcard with
            | some w =>
                rw [hw] at h
                dsimp only at h
                injection h with h
                injection h with h1 h2
                subst h1
                have hn : goodN w = true := by rw [hw] at hcw; exact hcw
                cases w with
                | mk nr nc nw =>
                    simp only [goodN, Bool.and_eq_true, Bool.or_eq_true,
                      decide_eq_true_eq] at hn
                    constructor
                    · refine ⟨hseq, hn.1.2, hn.2, ?_⟩
                      intro hr
                      simp only [SequenceNode.result, SequenceNode.children,
                        SequenceNode.wildcardChild] at hr ⊢
                      rcases hn.1.1 with h' | h'
                      · exact absurd h' hr
                      · constructor
                        · cases nc with
                          | nil => rfl
                          | cons _ _ _ => simp [tsize] at h'
                        · cases nw with
                          | none => rfl
                          | some _ => simp [isNoneW] at h'
                    · intro hne
                      exact absurd ((hres hne).2) (by rw [hw]; simp)
            | none =>
                rw [hw] at h
                dsimp only at h
                injection h with h
                injection h with h1 h2
                subst h1
                refine ⟨⟨hseq, rfl, rfl, fun _ => ⟨rfl, rfl⟩⟩, ?_⟩
                intro hne
                show (if s.result ≠ PResult.success then PResult.failure else s.result) =
                  s.result
                cases hsr : s.result with
                | success => simp
                | failure => simp
                | incomplete => exact absurd hsr hne

lemma playComputerResponse_inv (s : ProblemState) (pick : Nat) (s' : ProblemState)
    (hinv : ProblemInv s) (h : playComputerResponse s pick = .ok s') :
    ProblemInv s' ∧ (s.result ≠ .incomplete → s'.result = s.result) := by
  obtain ⟨hseq, hct, hcw, hres⟩ := hinv
  unfold playComputerResponse at h
  cases he : entries s.currentTree with
  | nil =>
      rw [he] at h
      injection h with h
      subst h
      exact ⟨⟨hseq, hct, hcw, hres⟩, fun _ => rfl⟩
  | cons c0 crest =>
      rw [he] at h
      dsimp only at h
      -- a success state has an exhausted cursor, so this branch cannot occur there
      have hget := getD_mem_or_default (c0 :: crest) (pick % (c0 :: crest).length) c0
      have hmem : ((c0 :: crest).getD (pick % (c0 :: crest).length) c0) ∈ entries s.currentTree := by
        rw [he]
        rcases hget with hg | hg
        · exact hg
        · rw [hg]; exact List.mem_cons_self _ _
      have hn : goodN ((c0 :: crest).getD (pick % (c0 :: crest).length) c0).2 = true :=
        entries_good _ hct _ hmem
      cases ha : addMove s.currentBoard
          ⟨((c0 :: crest).getD (pick % (c0 :: crest).length) c0).1,
            if s.isBlackTurn then .black else .white⟩ with
      | error e => rw [ha] at h; cases h
      | ok newBoard =>
          rw [ha] at h
          injection h with h
          subst h
          constructor
          · cases hnode : ((c0 :: crest).getD (pick % (c0 :: crest).length) c0).2 with
            | mk nr nc nw =>
                rw [hnode] at hn
                simp only [goodN, Bool.and_eq_true, Bool.or_eq_true,
                  decide_eq_true_eq] at hn
                refine ⟨hseq, hn.1.2, hn.2, ?_⟩
                intro hr
                simp only [SequenceNode.result, SequenceNode.children,
                  SequenceNode.wildcardChild] at hr ⊢
                rcases hn.1.1 with h' | h'
                · exact absurd h' hr
                · constructor
                  · cases nc with
                    | nil => rfl
                    | cons _ _ _ => simp [tsize] at h'
                  · cases nw with
                    | none => rfl
                    | some _ => simp [isNoneW] at h'
          · intro hne
            have := (hres hne).1
            rw [this] at he
            simp [entries] at he

lemma problemReset_inv (s : ProblemState) (hseq : goodT s.sequenceTree = true) :
    ProblemInv (problemReset s) := by
  refine ⟨hseq, hseq, rootWildcardOf_good _ hseq, ?_⟩
  intro hr
  simp [problemReset] at hr

inductive ProblemAction where
  | move (c : Pos)
  | reply (pick : Nat)
  | reset

/-- One public transition of the problem engine: a user click, the
deferred computer reply firing, or the reset button. -/
def problemStep (s : ProblemState) : ProblemAction → Except String ProblemState
  | .move c => (handleUserMove s c).map Prod.fst
  | .reply pick => playComputerResponse s pick
  | .reset => .ok (problemReset s)

/-- Play states reachable from a constructed problem state. -/
inductive ProblemReachable (s0 : ProblemState) : ProblemState → Prop where
  | refl : ProblemReachable s0 s0
  | step {s s' : ProblemState} {a : ProblemAction} :
      ProblemReachable s0 s → problemStep s a = .ok s' → ProblemReachable s0 s'

/-- A chain of user moves and computer replies containing no reset. -/
inductive PlayChain : ProblemState → ProblemState → Prop where
  | refl (s : ProblemState) : PlayChain s s
  | move {s t t' : ProblemState} {b : Bool} {c : Pos} :
      PlayChain s t → handleUserMove t c = .ok (t', b) → PlayChain s t'
  | reply {s t t' : ProblemState} {pick : Nat} :
      PlayChain s t → playComputerResponse t pick = .ok t' → PlayChain s t'

lemma problemStep_inv {s s' : ProblemState} {a : ProblemAction}
    (hinv : ProblemInv s) (h : problemStep s a = .ok s') : ProblemInv s' := by
  cases a with
  | move c =>
      simp only [problemStep] at h
      cases hm : handleUserMove s c with
      | error e => rw [hm] at h; cases h
      | ok p =>
          rw [hm] at h
          simp only [Except.map] at h
          injection h with h
          subst h
          exact (handleUserMove_inv s c p.1 p.2 hinv (by rw [hm])).1
  | reply pick => exact (playComputerResponse_inv _ _ _ hinv h).1
  | reset =>
      simp only [problemStep] at h
      injection h with h
      subst h
      exact problemReset_inv s hinv.1

lemma reach_inv {s0 s : ProblemState} (h0 : ProblemInv s0)
    (h : ProblemReachable s0 s) : ProblemInv s := by
  induction h with
  | refl => exact h0
  | step _ hstep ih => exact problemStep_inv ih hstep

lemma playChain_terminal {s s' : ProblemState} (hinv : ProblemInv s)
    (hne : s.result ≠ .incomplete) (hchain : PlayChain s s') :
    ProblemInv s' ∧ s'.result = s.result := by
  induction hchain with
  | refl => exact ⟨hinv, rfl⟩
  | move _ hstep ih =>
      have h := handleUserMove_inv _ _ _ _ ih.1 hstep
      exact ⟨h.1, (h.2 (by rw [ih.2]; exact hne)).trans ih.2⟩
  | reply _ hstep ih =>
      have h := playComputerResponse_inv _ _ _ ih.1 hstep
      exact ⟨h.1, (h.2 (by rw [ih.2]; exact hne)).trans ih.2⟩

lemma problemInit_inv (board : Board) (toPlay : GoColor) (ignoreKo : Bool)
    (seqs : List (List PathItem × Bool)) (s0 : ProblemState)
    (hns : ∀ pb ∈ seqs, pb.1.head? ≠ some PathItem.star)
    (h : problemInit board toPlay ignoreKo seqs = .ok s0) :
    ProblemInv s0 ∧ s0.result = .incomplete := by
  unfold problemInit at h
  cases hv : seqs.forM (fun seq => validateSequence board toPlay seq.1) with
  | error e =>
      rw [hv] at h
      simp [Bind.bind, Except.bind] at h
  | ok u =>
      cases u
      rw [hv] at h
      simp only [Bind.bind, Except.bind, pure, Except.pure] at h
      injection h with h
      subst h
      have hg : goodT (buildSequenceTree seqs) = true := buildSequenceTree_good seqs hns
      exact ⟨⟨hg, hg, rootWildcardOf_good _ hg, by intro hr; exact absurd rfl hr⟩, rfl⟩

/-- C4 — amended.  For a problem declared without root-level wildcard
paths, once the result is terminal — Success or Failure, i.e. anything
but Incomplete — no subsequent user move and no computer reply ever
changes it; and `reset()` always sets the result back to Incomplete, so
reset is the only exit from Success/Failure.  A root-level wildcard
declaration breaks this: it hangs a wildcardChild on a Success leaf,
and a post-success wildcard-matched click resets the result to
Incomplete (see the counterexample). -/
theorem success_sticky_without_root_wildcards :
    (∀ (board : Board) (toPlay : GoColor) (ignoreKo : Bool)
       (seqs : List (List PathItem × Bool)) (s0 s s' : ProblemState),
      (∀ pb ∈ seqs, pb.1.head? ≠ some PathItem.star) →
      problemInit board toPlay ignoreKo seqs = .ok s0 →
      ProblemReachable s0 s →
      s.result ≠ .incomplete →
      PlayChain s s' →
      s'.result = s.result) ∧
    (∀ s : ProblemState, (problemReset s).result = .incomplete) := by
  constructor
  · intro board toPlay ignoreKo seqs s0 s s' hns hinit hreach hterm hchain
    have hinv0 := (problemInit_inv board toPlay ignoreKo seqs s0 hns hinit).1
    have hinv := reach_inv hinv0 hreach
    exact (playChain_terminal hinv hterm hchain).2
  · intro s; rfl

/-! Concrete instantiation: the single-move solution `a` at (0,0). -/

def c4wseqs : List (List PathItem × Bool) := [([.coord (0, 0)], true)]

def c4wtree : SequenceTree := .cons (0, 0) (.mk .success .nil .none) .nil

lemma c4wtree_eq : buildSequenceTree c4wseqs = c4wtree := by
  simp [buildSequenceTree, c4wseqs, c4wtree, addSequence, buildLoopState, flaggedRev,
    buildStep, mergeSequenceTrees, mget, mset, tsize]

def c4ws0 : ProblemState :=
  { initialBoard := emptyBoard 3
    toPlay := .black
    ignoreKo := false
    sequenceTree := c4wtree
    result := .incomplete
    currentTree := c4wtree
    currentWildcard := .none
    playedMoves := []
    currentBoard := emptyBoard 3
    isBlackTurn := true
    whiteCaptured := 0
    blackCaptured := 0
    koPoint := none }

lemma c4winit : problemInit (emptyBoard 3) .black false c4wseqs = .ok c4ws0 := by
  have hv : c4wseqs.forM (fun seq => validateSequence (emptyBoard 3) .black seq.1) =
      .ok () := rfl
  simp [problemInit, hv, c4wtree_eq, c4ws0, Bind.bind, Except.bind, rootWildcardOf,
    c4wtree, pure, Except.pure, SequenceNode.wildcardChild]

/-- After solving with the single click (0,0). -/
def c4ws1 : ProblemState :=
  { c4ws0 with
      result := .success
      currentTree := .nil
      currentWildcard := .none
      playedMoves := [⟨(0, 0), .black⟩]
      currentBoard := boardWith 3 [((0, 0), .black)]
      isBlackTurn := false }

/-- After a further (off-tree) click at (1,1): still Success. -/
def c4ws2 : ProblemState :=
  { c4ws1 with
      playedMoves := [⟨(0, 0), .black⟩, ⟨(1, 1), .white⟩]
      currentBoard := boardWith 3 [((0, 0), .black), ((1, 1), .white)]
      isBlackTurn := true }

/-- After a wrong (off-tree) first click at (1,1): result Failure,
cursor exhausted. -/
def c4wf1 : ProblemState :=
  match handleUserMove c4ws0 (1, 1) with
  | .ok (s, _) => s
  | .error _ => c4ws0

/-- After a further click at (2,2) from the failed state. -/
def c4wf2 : ProblemState :=
  match handleUserMove c4wf1 (2, 2) with
  | .ok (s, _) => s
  | .error _ => c4ws0

theorem success_sticky_without_root_wildcards_witness :
    (c4ws1.result = .success ∧ c4ws2.result = c4ws1.result) ∧
    (c4wf1.result = .failure ∧ c4wf2.result = c4wf1.result) :=
  ⟨⟨rfl,
    success_sticky_without_root_wildcards.1 (emptyBoard 3) .black false c4wseqs
      c4ws0 c4ws1 c4ws2
      (by decide)
      c4winit
      (ProblemReachable.step ProblemReachable.refl
        (show problemStep c4ws0 (.move (0, 0)) = .ok c4ws1 from rfl))
      (by decide)
      (PlayChain.move (PlayChain.refl c4ws1)
        (show handleUserMove c4ws1 (1, 1) = .ok (c4ws2, false) from rfl))⟩,
   ⟨rfl,
    success_sticky_without_root_wildcards.1 (emptyBoard 3) .black false c4wseqs
      c4ws0 c4wf1 c4wf2
      (by decide)
      c4winit
      (ProblemReachable.step ProblemReachable.refl
        (show problemStep c4ws0 (.move (1, 1)) = .ok c4wf1 from rfl))
      (by decide)
      (PlayChain.move (PlayChain.refl c4wf1)
        (show handleUserMove c4wf1 (2, 2) = .ok (c4wf2, false) from rfl))⟩⟩

/-! The counterexample configuration: solutions `a`, sequences `*>b`
(the same `c24seqs` as for the invariant claim). -/

/-- The constructed problem state for `c24seqs`; note the root-level
wildcard is live at the root (`currentWildcard` set). -/
def c24s0 : ProblemState :=
  { initialBoard := emptyBoard 3
    toPlay := .black
    ignoreKo := false
    sequenceTree := c24tree
    result := .incomplete
    currentTree := c24tree
    currentWildcard :=
      .some (.mk .incomplete (.cons (1, 1) (.mk .failure .nil .none) .nil) .none)
    playedMoves := []
    currentBoard := emptyBoard 3
    isBlackTurn := true
    whiteCaptured := 0
    blackCaptured := 0
    koPoint := none }

lemma c24init_eq : problemInit (emptyBoard 3) .black false c24seqs = .ok c24s0 := by
  have hv : c24seqs.forM (fun seq => validateSequence (emptyBoard 3) .black seq.1) =
      .ok () := rfl
  simp [problemInit, hv, c24tree_eq, c24s0, Bind.bind, Except.bind, rootWildcardOf,
    c24tree, pure, Except.pure, SequenceNode.wildcardChild]

/-- Playing (0,0) (Success), then any off-solution point (2,2): the
wildcard attached by `*>b` matches, and the result drops back to
Incomplete. -/
def c24check : Bool :=
  match handleUserMove c24s0 (0, 0) with
  | .ok (s1, _) =>
      decide (s1.result = .success) &&
      (match handleUserMove s1 (2, 2) with
       | .ok (s2, _) => decide (s2.result = .incomplete)
       | .error _ => false)
  | .error _ => false

/-- C4 — counterexample.  In the constructor-accepted configuration
`solutions: a`, `sequences: *>b`, the result reaches Success after the
solving click and a subsequent click changes it back to Incomplete with
no reset: Success is not sticky as claimed. -/
theorem success_changed_by_wildcard_click :
    problemInit (emptyBoard 3) GoColor.black false c24seqs = .ok c24s0 ∧
    c24check = true :=
  ⟨c24init_eq, rfl⟩

/-! ## Claims C6 and C7: replay numbering and reference resolution -/

lemma resolveAll_ok_forall (boardC : List (Nat × Pos)) (movesM : List (Nat × Nat)) :
    ∀ (l : List Nat) (ys : List (Nat × Pos)), resolveAll boardC movesM l = .ok ys →
      ∀ m ∈ l, ∃ c, resolveCoordinate boardC movesM m [] = .ok c := by
  intro l
  induction l with
  | nil => intro ys _ m hm; simp at hm
  | cons a rest ih =>
      intro ys h m hm
      simp only [resolveAll] at h
      cases hf : resolveCoordinate boardC movesM a [] with
      | error e => rw [hf] at h; cases h
      | ok c0 =>
          rw [hf] at h
          cases hr : resolveAll boardC movesM rest with
          | error e => rw [hr] at h; cases h
          | ok ys0 =>
              rcases List.mem_cons.mp hm with hm | hm
              · exact ⟨c0, by rw [hm]; exact hf⟩
              · exact ih ys0 hr m hm

lemma resolveAll_ok_mem (boardC : List (Nat × Pos)) (movesM : List (Nat × Nat)) :
    ∀ (l : List Nat) (ys : List (Nat × Pos)), resolveAll boardC movesM l = .ok ys →
      ∀ mc ∈ ys, mc.1 ∈ l ∧ resolveCoordinate boardC movesM mc.1 [] = .ok mc.2 := by
  intro l
  induction l with
  | nil =>
      intro ys h mc hmc
      simp only [resolveAll] at h
      injection h with h
      subst h
      simp at hmc
  | cons a rest ih =>
      intro ys h mc hmc
      simp only [resolveAll] at h
      cases hf : resolveCoordinate boardC movesM a [] with
      | error e => rw [hf] at h; cases h
      | ok c0 =>
          rw [hf] at h
          cases hr : resolveAll boardC movesM rest with
          | error e => rw [hr] at h; cases h
          | ok ys0 =>
              rw [hr] at h
              injection h with h
              subst h
              rcases List.mem_cons.mp hmc with hmc | hmc
              · rw [hmc]
                exact ⟨List.mem_cons_self _ _, hf⟩
              · obtain ⟨hx, hfx⟩ := ih ys0 hr mc hmc
                exact ⟨List.mem_cons_of_mem _ hx, hfx⟩

lemma lookup_eq_some_of_mem_nodup {β : Type _} :
    ∀ (l : List (Nat × β)) (k : Nat) (v : β),
      (l.map Prod.fst).Nodup → (k, v) ∈ l → l.lookup k = some v := by
  intro l
  induction l with
  | nil => intro k v _ hm; simp at hm
  | cons a rest ih =>
      intro k v hnd hm
      simp only [List.map_cons, List.nodup_cons] at hnd
      rcases List.mem_cons.mp hm with hm | hm
      · rw [← hm]
        simp [List.lookup]
      · have hk : k ≠ a.1 := by
          intro hk
          exact hnd.1 (by rw [← hk]; exact List.mem_map_of_mem Prod.fst hm)
        have hbeq : (k == a.1) = false := beq_eq_false_iff_ne.mpr hk
        simp only [List.lookup, hbeq]
        exact ih k v hnd.2 hm

lemma consecutiveCheck_ok :
    ∀ (l : List Nat) (k : Nat), consecutiveCheck l k = .ok () → l = List.range' k l.length := by
  intro l
  induction l with
  | nil => intro k _; simp
  | cons a rest ih =>
      intro k h
      simp only [consecutiveCheck, beq_iff_eq] at h
      by_cases ha : a = k
      · rw [if_pos (by simpa using ha)] at h
        have := ih (k + 1) h
        simp only [List.length_cons, List.range'_succ]
        rw [ha, ← this]
      · rw [if_neg (by simpa using ha)] at h
        cases h

/-- Success decomposition of `buildMoveSequence`: the extraction, the
emptiness check, the consecutiveness check and the resolution all
succeeded, and the move list is the colored image of the resolved
pairs. -/
lemma buildMoveSequence_ok_elim {otherMarks : List (String × List Pos)}
    {startColor : GoColor} {movesMap : List (Nat × Nat)} {moves : List ParsedMove}
    (h : buildMoveSequence otherMarks startColor movesMap = .ok moves) :
    ∃ numbered resolved,
      extractNumberedMarks otherMarks = .ok numbered ∧
      ((numbered.map (·.1) ++ movesMap.map (·.1)).dedup).length ≠ 0 ∧
      consecutiveCheck
        (((numbered.map (·.1) ++ movesMap.map (·.1)).dedup).insertionSort (· ≤ ·)) 1 =
        .ok () ∧
      resolveAll numbered movesMap
        (((numbered.map (·.1) ++ movesMap.map (·.1)).dedup).insertionSort (· ≤ ·)) =
        .ok resolved ∧
      moves = resolved.map
        (fun mc =>
          { moveNumber := mc.1
            coordinate := mc.2
            color := if mc.1 % 2 == 1 then startColor else startColor.opposite }) := by
  unfold buildMoveSequence at h
  cases he : extractNumberedMarks otherMarks with
  | error e => rw [he] at h; cases h
  | ok numbered =>
      rw [he] at h
      dsimp only at h
      by_cases hlen : ((numbered.map (·.1) ++ movesMap.map (·.1)).dedup).length = 0
      · rw [if_pos (by simpa using hlen)] at h
        cases h
      · rw [if_neg (by simpa using hlen)] at h
        cases hc : consecutiveCheck
            (((numbered.map (·.1) ++ movesMap.map (·.1)).dedup).insertionSort (· ≤ ·)) 1 with
        | error e => rw [hc] at h; cases h
        | ok u =>
            cases u
            rw [hc] at h
            cases hm : resolveAll numbered movesMap
                (((numbered.map (·.1) ++ movesMap.map (·.1)).dedup).insertionSort (· ≤ ·)) with
            | error e => rw [hm] at h; cases h
            | ok resolved =>
                rw [hm] at h
                injection h with h
                exact ⟨numbered, resolved, rfl, hlen, hc, hm, h.symm⟩

lemma replayFold_err :
    ∀ (l : List ParsedMove) (acc : Board × Nat × Nat) (e : String),
      replayFold acc l = .error e → e = "illegal move" := by
  intro l
  induction l with
  | nil => intro acc e h; simp [replayFold] at h
  | cons m rest ih =>
      intro acc e h
      obtain ⟨board, w, b⟩ := acc
      simp only [replayFold] at h
      cases ha : addMove board ⟨m.coordinate, m.color⟩ with
      | error e' =>
          rw [ha] at h
          have he' : e' = "illegal move" := by
            unfold addMove at ha
            by_cases hl : isLegalMove board ⟨m.coordinate, m.color⟩ = true
            · rw [if_pos hl] at ha; cases ha
            · rw [if_neg hl] at ha
              injection ha with ha
              exact ha.symm
          injection h with h
          rw [← h, he']
      | ok board2 =>
          rw [ha] at h
          exact ih _ e h

/-- C6 — confirmed.  (i) Construction succeeds only when the sorted
union of board move numbers and reference-table keys is exactly
`1..N`, `N ≥ 1`; (ii) numbering `{1, 3}` with no `2` throws; (iii) a
number appearing at two board positions throws; (iv) no numbered move
at all throws; (v) navigation (`goToMove` and the cursor moves built on
it) rebuilds by pure move replay whose only possible error is the move
application's "illegal move" — never a numbering error, which are
raised at construction only. -/
theorem replay_numbering_validation :
    (∀ (otherMarks : List (String × List Pos)) (startColor : GoColor)
       (movesMap : List (Nat × Nat)) (moves : List ParsedMove),
      buildMoveSequence otherMarks startColor movesMap = .ok moves →
      ∃ (numbered : List (Nat × Pos)) (N : Nat),
        extractNumberedMarks otherMarks = .ok numbered ∧ 1 ≤ N ∧
        (∀ n : Nat,
          (n ∈ numbered.map (·.1) ∨ n ∈ movesMap.map (·.1)) ↔ (1 ≤ n ∧ n ≤ N))) ∧
    (buildMoveSequence [("1", [(0, 0)]), ("3", [(0, 2)])] .black []).isOk = false ∧
    (buildMoveSequence [("1", [(0, 0), (1, 1)])] .black []).isOk = false ∧
    (buildMoveSequence [] .black []).isOk = false ∧
    (∀ (initialBoard : Board) (moveSequence : List ParsedMove) (index : Int) (e : String),
      replayGoToMove initialBoard moveSequence index = .error e → e = "illegal move") := by
  refine ⟨?_, by rfl, by rfl, by rfl, ?_⟩
  · intro otherMarks startColor movesMap moves h
    obtain ⟨numbered, resolved, he, hlen, hc, _, _⟩ := buildMoveSequence_ok_elim h
    have hsorted := consecutiveCheck_ok _ 1 hc
    set allNums := (numbered.map (·.1) ++ movesMap.map (·.1)).dedup with hall
    refine ⟨numbered, (allNums.insertionSort (· ≤ ·)).length, he, ?_, ?_⟩
    · have : (allNums.insertionSort (· ≤ ·)).length = allNums.length := by
        simp [List.length_insertionSort]
      omega
    · intro n
      have hmem : n ∈ allNums.insertionSort (· ≤ ·) ↔ n ∈ allNums :=
        (List.perm_insertionSort _ _).mem_iff
      have hmem2 : (n ∈ numbered.map (·.1) ∨ n ∈ movesMap.map (·.1)) ↔ n ∈ allNums := by
        rw [hall, List.mem_dedup, List.mem_append]
      rw [hmem2, ← hmem, hsorted, List.mem_range'_1]
      simp only [List.length_range']
      omega
  · intro initialBoard moveSequence index e h
    exact replayFold_err _ _ e h

/-- A two-move replay used to instantiate the confirmed clauses. -/
def c6wMarks : List (String × List Pos) := [("1", [(0, 0)]), ("2", [(1, 1)])]

lemma c6w_resolve1 : resolveCoordinate [(1, ((0, 0) : Pos)), (2, (1, 1))] [] 1 [] =
    .ok (0, 0) := by
  rw [resolveCoordinate]
  rfl

lemma c6w_resolve2 : resolveCoordinate [(1, ((0, 0) : Pos)), (2, (1, 1))] [] 2 [] =
    .ok (1, 1) := by
  rw [resolveCoordinate]
  rfl

lemma c6w_eval : buildMoveSequence c6wMarks .black [] =
    .ok [⟨1, (0, 0), .black⟩, ⟨2, (1, 1), .white⟩] := by
  have hres : resolveAll [(1, ((0, 0) : Pos)), (2, (1, 1))] [] [1, 2] =
      .ok [(1, (0, 0)), (2, (1, 1))] := by
    simp only [resolveAll, c6w_resolve1, c6w_resolve2]
  calc buildMoveSequence c6wMarks .black []
      = (match resolveAll [(1, ((0, 0) : Pos)), (2, (1, 1))] [] [1, 2] with
        | .error e => .error e
        | .ok resolved =>
            .ok (resolved.map
              (fun mc =>
                ({ moveNumber := mc.1
                   coordinate := mc.2
                   color := if mc.1 % 2 == 1 then GoColor.black
                     else GoColor.black.opposite } : ParsedMove)))) := by rfl
    _ = .ok [⟨1, (0, 0), .black⟩, ⟨2, (1, 1), .white⟩] := by rw [hres]; rfl

theorem replay_numbering_validation_witness :
    ∃ (numbered : List (Nat × Pos)) (N : Nat),
      extractNumberedMarks c6wMarks = .ok numbered ∧ 1 ≤ N ∧
      (∀ n : Nat, (n ∈ numbered.map (·.1) ∨ n ∈ [] ) ↔ (1 ≤ n ∧ n ≤ N)) := by
  have h := replay_numbering_validation.1 c6wMarks .black []
    [⟨1, (0, 0), .black⟩, ⟨2, (1, 1), .white⟩] c6w_eval
  simpa using h

/-! ### Claim C7: reference resolution -/

/-- The referencing chain of move numbers: `ResolvesTo m b` when the
chain of table references starting at `m` ends at the board-present
move number `b`. -/
inductive ResolvesTo (boardC : List (Nat × Pos)) (movesM : List (Nat × Nat)) :
    Nat → Nat → Prop where
  | direct (m : Nat) (c : Pos) (h : boardC.lookup m = some c) :
      ResolvesTo boardC movesM m m
  | step (m r b : Nat) (hb : boardC.lookup m = none) (hr : movesM.lookup m = some r)
      (h : ResolvesTo boardC movesM r b) : ResolvesTo boardC movesM m b

lemma resolveCoordinate_chain (boardC : List (Nat × Pos)) (movesM : List (Nat × Nat))
    (m : Nat) (visited : List Nat) (c : Pos)
    (h : resolveCoordinate boardC movesM m visited = .ok c) :
    ∃ b, ResolvesTo boardC movesM m b ∧ boardC.lookup b = some c := by
  rw [resolveCoordinate] at h
  by_cases hv : visited.contains m = true
  · rw [if_pos hv] at h; cases h
  · rw [if_neg hv] at h
    cases hb : boardC.lookup m with
    | some coord =>
        rw [hb] at h
        dsimp only at h
        injection h with h
        subst h
        exact ⟨m, .direct m coord hb, hb⟩
    | none =>
        rw [hb] at h
        dsimp only at h
        cases hr : movesM.lookup m with
        | none => rw [hr] at h; cases h
        | some r =>
            rw [hr] at h
            dsimp only at h
            by_cases hge : r ≥ m
            · rw [if_pos hge] at h; cases h
            · rw [if_neg hge] at h
              obtain ⟨b, hchain, hlook⟩ :=
                resolveCoordinate_chain boardC movesM r (m :: visited) c h
              exact ⟨b, .step m r b hb hr hchain, hlook⟩
termination_by m
decreasing_by omega

/-- C7 — confirmed.  (i) A self-referencing `moves` entry makes the
constructor's table validation throw; (ii) an entry for a move number
not on the board whose reference is equal or later makes construction
throw — this also covers every reference cycle among table-only moves,
since a cycle cannot be strictly decreasing; (iii) on success, every
move's number follows its reference chain to a board-present number
whose board coordinate it is assigned. -/
theorem replay_reference_resolution :
    (∀ (entries : List (Int × Int)) (k : Int),
      (k, k) ∈ entries → (validateMovesConfig entries).isOk = false) ∧
    (∀ (otherMarks : List (String × List Pos)) (startColor : GoColor)
       (movesMap : List (Nat × Nat)) (numbered : List (Nat × Pos)) (m r : Nat),
      (movesMap.map (·.1)).Nodup → (m, r) ∈ movesMap →
      extractNumberedMarks otherMarks = .ok numbered →
      numbered.lookup m = none →
      r ≥ m →
      (buildMoveSequence otherMarks startColor movesMap).isOk = false) ∧
    (∀ (otherMarks : List (String × List Pos)) (startColor : GoColor)
       (movesMap : List (Nat × Nat)) (moves : List ParsedMove),
      buildMoveSequence otherMarks startColor movesMap = .ok moves →
      ∀ mv ∈ moves, ∃ (numbered : List (Nat × Pos)) (b : Nat),
        extractNumberedMarks otherMarks = .ok numbered ∧
        ResolvesTo numbered movesMap mv.moveNumber b ∧
        numbered.lookup b = some mv.coordinate) := by
  refine ⟨?_, ?_, ?_⟩
  · intro entries k hk
    induction entries with
    | nil => simp at hk
    | cons a rest ih =>
        rcases List.mem_cons.mp hk with hk1 | hk2
        · rw [← hk1]
          simp only [validateMovesConfig]
          by_cases h0 : k ≤ 0
          · rw [if_pos h0]; rfl
          · rw [if_neg h0, if_neg h0, if_pos (by simp)]; rfl
        · obtain ⟨a1, a2⟩ := a
          simp only [validateMovesConfig]
          by_cases h1 : a1 ≤ 0
          · rw [if_pos h1]; rfl
          · rw [if_neg h1]
            by_cases h2 : a2 ≤ 0
            · rw [if_pos h2]; rfl
            · rw [if_neg h2]
              by_cases h3 : (a1 == a2) = true
              · rw [if_pos h3]; rfl
              · rw [if_neg h3]
                have := ih hk2
                cases hrec : validateMovesConfig rest with
                | error e => rfl
                | ok r => rw [hrec] at this; cases this
  · intro otherMarks startColor movesMap numbered m r hnd hm he hlb hge
    cases hb : buildMoveSequence otherMarks startColor movesMap with
    | error e => rfl
    | ok moves =>
        exfalso
        obtain ⟨numbered', resolved, he', _, _, hres, _⟩ := buildMoveSequence_ok_elim hb
        rw [he] at he'
        injection he' with he'
        subst he'
        have hmem : m ∈ ((numbered.map (·.1) ++ movesMap.map (·.1)).dedup).insertionSort
            (· ≤ ·) := by
          rw [(List.perm_insertionSort _ _).mem_iff, List.mem_dedup, List.mem_append]
          exact Or.inr (List.mem_map_of_mem _ hm)
        obtain ⟨c, hc⟩ := resolveAll_ok_forall _ _ _ _ hres m hmem
        rw [resolveCoordinate] at hc
        rw [if_neg (by simp)] at hc
        rw [hlb] at hc
        dsimp only at hc
        rw [lookup_eq_some_of_mem_nodup movesMap m r hnd hm] at hc
        dsimp only at hc
        rw [if_pos hge] at hc
        cases hc
  · intro otherMarks startColor movesMap moves h mv hmv
    obtain ⟨numbered, resolved, he, _, _, hres, hmoves⟩ := buildMoveSequence_ok_elim h
    subst hmoves
    obtain ⟨mc, hmc, hmveq⟩ := List.mem_map.mp hmv
    obtain ⟨_, hcoord⟩ := resolveAll_ok_mem _ _ _ _ hres mc hmc
    obtain ⟨b, hchain, hlook⟩ := resolveCoordinate_chain _ _ _ _ _ hcoord
    refine ⟨numbered, b, he, ?_, ?_⟩
    · rw [← hmveq]; exact hchain
    · rw [← hmveq]; exact hlook

/-- A reference-table replay: move 3 references move 1 on the board. -/
theorem replay_reference_resolution_witness :
    (validateMovesConfig [(2, 2)]).isOk = false ∧
    (buildMoveSequence [("1", [((0, 0) : Pos)])] .black [(2, 3)]).isOk = false ∧
    (∃ (numbered : List (Nat × Pos)) (b : Nat),
      extractNumberedMarks c6wMarks = .ok numbered ∧
      ResolvesTo numbered [] 1 b ∧
      numbered.lookup b = some (0, 0)) := by
  refine ⟨?_, ?_, ?_⟩
  · exact replay_reference_resolution.1 [(2, 2)] 2 (List.mem_cons_self _ _)
  · exact replay_reference_resolution.2.1 [("1", [((0, 0) : Pos)])] .black [(2, 3)]
      [(1, (0, 0))] 2 3 (by simp) (List.mem_cons_self _ _) (by rfl) (by rfl) (by omega)
  · have h := replay_reference_resolution.2.2 c6wMarks .black []
      [⟨1, (0, 0), .black⟩, ⟨2, (1, 1), .white⟩] c6w_eval
      ⟨1, (0, 0), .black⟩ (List.mem_cons_self _ _)
    exact h

/-! ## Claim C8: undo–redo round trip in freeplay -/

lemma rebuildFold_append (l1 l2 : List HistoryEntry) :
    ∀ acc, rebuildFold acc (l1 ++ l2) =
      match rebuildFold acc l1 with
      | .error e => .error e
      | .ok acc2 => rebuildFold acc2 l2 := by
  induction l1 with
  | nil => intro acc; simp [rebuildFold]
  | cons e rest ih =>
      intro acc
      cases e with
      | move m =>
          simp only [List.cons_append, rebuildFold]
          cases addMove acc.board m with
          | error e => rfl
          | ok board2 => exact ih _
      | pass c =>
          simp only [List.cons_append, rebuildFold]
          exact ih _

/-- The board/capture half of rebuild consistency: replaying the
history up to the cursor reproduces the installed board and capture
counts. -/
def BoardCapsConsistent (s : FreeplayState) : Prop :=
  ∃ acc : RebuildAcc,
    rebuildFold
      { board := s.initialBoard, whiteCaptured := 0, blackCaptured := 0
        preBoard := s.initialBoard, lastMove := none }
      (s.history.take (s.currentMoveIndex + 1).toNat) = .ok acc ∧
    acc.board = s.currentBoard ∧ acc.whiteCaptured = s.whiteCaptured ∧
    acc.blackCaptured = s.blackCaptured

/-- The state invariant of reachable freeplay states: cursor in range,
virgin state at cursor −1, board/captures rebuild-consistent at
cursor ≥ 0, and (in alternating mode) the turn rebuild-consistent at
cursor ≥ 0.  (In a fixed color mode the stored turn can disagree with
the rebuild derivation before the first rebuild, when a contradictory
one-time `to-play` override is in force.) -/
def FreeplayInv (s : FreeplayState) : Prop :=
  -1 ≤ s.currentMoveIndex ∧
  s.currentMoveIndex < (s.history.length : Int) ∧
  (s.currentMoveIndex = -1 →
    s.currentBoard = s.initialBoard ∧ s.whiteCaptured = 0 ∧ s.blackCaptured = 0) ∧
  (0 ≤ s.currentMoveIndex → BoardCapsConsistent s) ∧
  (0 ≤ s.currentMoveIndex → s.colorMode = .alternate →
    turnFromHistory .alternate s.history s.currentMoveIndex = .ok s.isBlackTurn)

lemma recomputeCore_ok_elim {initialBoard : Board} {colorMode : ColorMode}
    {ignoreKo : Bool} {history : List HistoryEntry} {idx : Int} {out : RebuildOut}
    (h : recomputeCore initialBoard colorMode ignoreKo history idx = .ok out) :
    ∃ acc : RebuildAcc,
      rebuildFold
        { board := initialBoard, whiteCaptured := 0, blackCaptured := 0
          preBoard := initialBoard, lastMove := none }
        (history.take (idx + 1).toNat) = .ok acc ∧
      turnFromHistory colorMode history idx = .ok out.isBlackTurn ∧
      out.board = acc.board ∧ out.whiteCaptured = acc.whiteCaptured ∧
      out.blackCaptured = acc.blackCaptured := by
  unfold recomputeCore at h
  cases hf : rebuildFold
      { board := initialBoard, whiteCaptured := 0, blackCaptured := 0
        preBoard := initialBoard, lastMove := none }
      (history.take (idx + 1).toNat) with
  | error e => rw [hf] at h; cases h
  | ok acc =>
      rw [hf] at h
      cases ht : turnFromHistory colorMode history idx with
      | error e => rw [ht] at h; cases h
      | ok turn =>
          rw [ht] at h
          injection h with h
          subst h
          refine ⟨acc, rfl, ?_, rfl, rfl, rfl⟩
          rfl

lemma recomputeCore_ok_intro {initialBoard : Board} {colorMode : ColorMode}
    {ignoreKo : Bool} {history : List HistoryEntry} {idx : Int} {acc : RebuildAcc}
    {turn : Bool}
    (hf : rebuildFold
      { board := initialBoard, whiteCaptured := 0, blackCaptured := 0
        preBoard := initialBoard, lastMove := none }
      (history.take (idx + 1).toNat) = .ok acc)
    (ht : turnFromHistory colorMode history idx = .ok turn) :
    recomputeCore initialBoard colorMode ignoreKo history idx =
      .ok { board := acc.board
            whiteCaptured := acc.whiteCaptured
            blackCaptured := acc.blackCaptured
            isBlackTurn := turn
            koPoint :=
              match acc.lastMove with
              | some m => if !ignoreKo then followupKo acc.preBoard m else none
              | none => none } := by
  unfold recomputeCore
  rw [hf, ht]

lemma rebuildFold_prefix {acc0 acc : RebuildAcc} {l : List HistoryEntry} {k : Nat}
    (h : rebuildFold acc0 l = .ok acc) :
    ∃ acc2, rebuildFold acc0 (l.take k) = .ok acc2 := by
  have hsplit : l = l.take k ++ l.drop k := (List.take_append_drop k l).symm
  rw [hsplit, rebuildFold_append] at h
  cases hf : rebuildFold acc0 (l.take k) with
  | error e => rw [hf] at h; cases h
  | ok acc2 => exact ⟨acc2, rfl⟩

lemma turnFromHistory_exists (cm : ColorMode) (history : List HistoryEntry) (idx : Int)
    (h1 : -1 ≤ idx) (h2 : idx < (history.length : Int)) :
    ∃ t, turnFromHistory cm history idx = .ok t := by
  cases cm with
  | black => exact ⟨true, rfl⟩
  | white => exact ⟨false, rfl⟩
  | alternate =>
      unfold turnFromHistory
      by_cases hm : idx = -1
      · rw [if_pos hm]; exact ⟨true, rfl⟩
      · rw [if_neg hm]
        have hn : idx.toNat < history.length := by omega
        rw [List.get?_eq_getElem?, List.getElem?_eq_getElem hn]
        exact ⟨_, rfl⟩

lemma freeplayRebuild_eq_of_core {t : FreeplayState} {out : RebuildOut}
    (h : recomputeCore t.initialBoard t.colorMode t.ignoreKo t.history t.currentMoveIndex
      = .ok out) :
    freeplayRebuild t = .ok (applyRecompute t out) := by
  unfold freeplayRebuild
  rw [h]

lemma freeplayRebuild_ok_inv {t s' : FreeplayState}
    (hlo : -1 ≤ t.currentMoveIndex)
    (hhi : t.currentMoveIndex < (t.history.length : Int))
    (h : freeplayRebuild t = .ok s') : FreeplayInv s' := by
  unfold freeplayRebuild at h
  cases hr : recomputeCore t.initialBoard t.colorMode t.ignoreKo t.history t.currentMoveIndex with
  | error e => rw [hr] at h; cases h
  | ok out =>
      rw [hr] at h
      injection h with h
      subst h
      obtain ⟨acc, hf, ht, hob, how, hobk⟩ := recomputeCore_ok_elim hr
      refine ⟨hlo, hhi, ?_, ?_, ?_⟩
      · intro hm1
        have hm1' : t.currentMoveIndex = -1 := hm1
        rw [hm1'] at hf
        have h0 : ((-1 : Int) + 1).toNat = 0 := rfl
        rw [h0, List.take_zero] at hf
        simp only [rebuildFold] at hf
        injection hf with hf
        refine ⟨?_, ?_, ?_⟩
        · show out.board = t.initialBoard
          rw [hob, ← hf]
        · show out.whiteCaptured = 0
          rw [how, ← hf]
        · show out.blackCaptured = 0
          rw [hobk, ← hf]
      · intro _
        exact ⟨acc, hf, hob.symm, how.symm, hobk.symm⟩
      · intro _ hcm
        have hcm' : t.colorMode = ColorMode.alternate := hcm
        rw [hcm'] at ht
        exact ht

lemma freeplayInit_inv (board : Board) (rc cc : Nat) (cm : ColorMode)
    (tp : Option GoColor) (ik : Bool) :
    FreeplayInv (freeplayInit board rc cc cm tp ik) := by
  refine ⟨?_, ?_, fun _ => ⟨rfl, rfl, rfl⟩, ?_, ?_⟩
  · show (-1 : Int) ≤ -1
    decide
  · show (-1 : Int) < (([] : List HistoryEntry).length : Int)
    decide
  · intro hcon
    exact absurd (show (0 : Int) ≤ -1 from hcon) (by decide)
  · intro hcon _
    exact absurd (show (0 : Int) ≤ -1 from hcon) (by decide)

lemma freeplayReset_inv (s : FreeplayState) : FreeplayInv (freeplayReset s) := by
  refine ⟨?_, ?_, fun _ => ⟨rfl, rfl, rfl⟩, ?_, ?_⟩
  · show (-1 : Int) ≤ -1
    decide
  · show (-1 : Int) < (([] : List HistoryEntry).length : Int)
    decide
  · intro hcon
    exact absurd (show (0 : Int) ≤ -1 from hcon) (by decide)
  · intro hcon _
    exact absurd (show (0 : Int) ≤ -1 from hcon) (by decide)

lemma freeplayPass_inv {s : FreeplayState} (hinv : FreeplayInv s) :
    FreeplayInv (freeplayPass s) := by
  obtain ⟨hlo, hhi, hvirgin, hbc, hturn⟩ := hinv
  have hklen : (s.currentMoveIndex + 1).toNat ≤ s.history.length := by omega
  have hpre : ∃ acc1,
      rebuildFold
        { board := s.initialBoard, whiteCaptured := 0, blackCaptured := 0
          preBoard := s.initialBoard, lastMove := none }
        (s.history.take (s.currentMoveIndex + 1).toNat) = .ok acc1 ∧
      acc1.board = s.currentBoard ∧ acc1.whiteCaptured = s.whiteCaptured ∧
      acc1.blackCaptured = s.blackCaptured := by
    by_cases h0 : 0 ≤ s.currentMoveIndex
    · exact hbc h0
    · have hm1 : s.currentMoveIndex = -1 := by omega
      obtain ⟨hb, hw, hbk⟩ := hvirgin hm1
      have hk0 : (s.currentMoveIndex + 1).toNat = 0 := by omega
      rw [hk0, List.take_zero]
      exact ⟨_, rfl, hb.symm, hw.symm, hbk.symm⟩
  obtain ⟨acc1, hf1, hb1, hw1, hbk1⟩ := hpre
  dsimp only [FreeplayInv, BoardCapsConsistent, freeplayPass]
  refine ⟨by omega, ?_, fun hcon => absurd hcon (by omega), ?_, ?_⟩
  · simp only [List.length_append, List.length_take, List.length_cons, List.length_nil]
    omega
  · intro _
    have htake :
        ((s.history.take (s.currentMoveIndex + 1).toNat ++
            [HistoryEntry.pass (if s.isBlackTurn then GoColor.black else GoColor.white)]).take
          (s.currentMoveIndex + 1 + 1).toNat) =
        s.history.take (s.currentMoveIndex + 1).toNat ++
          [HistoryEntry.pass (if s.isBlackTurn then GoColor.black else GoColor.white)] := by
      apply List.take_of_length_le
      simp only [List.length_append, List.length_take, List.length_cons, List.length_nil]
      omega
    rw [htake, rebuildFold_append, hf1]
    exact ⟨{ acc1 with lastMove := none }, rfl, hb1, hw1, hbk1⟩
  · intro _ hcm
    rw [if_pos hcm]
    have hgetlen : (s.history.take (s.currentMoveIndex + 1).toNat).length =
        (s.currentMoveIndex + 1).toNat := by
      simp only [List.length_take]
      omega
    unfold turnFromHistory
    rw [if_neg (show ¬s.currentMoveIndex + 1 = -1 by omega)]
    generalize hL : s.history.take (s.currentMoveIndex + 1).toNat = L at hgetlen ⊢
    rw [← hgetlen, List.get?_eq_getElem?, List.getElem?_concat_length]
    cases hsb : s.isBlackTurn <;> rfl

lemma freeplayStep_inv {s s' : FreeplayState} {a : FreeplayAction}
    (hinv : FreeplayInv s) (h : freeplayStep s a = .ok s') : FreeplayInv s' := by
  obtain ⟨hlo, hhi, hvirgin, hbc, hturn⟩ := hinv
  cases a with
  | pass =>
      simp only [freeplayStep] at h
      injection h with h
      subst h
      exact freeplayPass_inv ⟨hlo, hhi, hvirgin, hbc, hturn⟩
  | reset =>
      simp only [freeplayStep] at h
      injection h with h
      subst h
      exact freeplayReset_inv s
  | undo =>
      simp only [freeplayStep, freeplayUndo] at h
      by_cases h0 : s.currentMoveIndex ≥ 0
      · rw [if_pos h0] at h
        refine freeplayRebuild_ok_inv ?_ ?_ h
        · show (-1 : Int) ≤ s.currentMoveIndex - 1
          omega
        · show s.currentMoveIndex - 1 < (s.history.length : Int)
          omega
      · rw [if_neg h0] at h
        injection h with h
        subst h
        exact ⟨hlo, hhi, hvirgin, hbc, hturn⟩
  | redo =>
      simp only [freeplayStep, freeplayRedo] at h
      by_cases h0 : s.currentMoveIndex < (s.history.length : Int) - 1
      · rw [if_pos h0] at h
        refine freeplayRebuild_ok_inv ?_ ?_ h
        · show (-1 : Int) ≤ s.currentMoveIndex + 1
          omega
        · show s.currentMoveIndex + 1 < (s.history.length : Int)
          omega
      · rw [if_neg h0] at h
        injection h with h
        subst h
        exact ⟨hlo, hhi, hvirgin, hbc, hturn⟩
  | click c =>
      simp only [freeplayStep, freeplayClick] at h
      by_cases hb : (c.1 < s.rowCount && c.2 < s.columnCount) = true
      · rw [if_pos hb] at h
        by_cases hko : (!s.ignoreKo &&
            (match s.koPoint with | some k => decide (c = k) | none => false)) = true
        · rw [if_pos hko] at h
          injection h with h
          subst h
          exact ⟨hlo, hhi, hvirgin, hbc, hturn⟩
        · rw [if_neg hko] at h
          by_cases hleg : isLegalMove s.currentBoard
              ⟨c, if s.isBlackTurn then GoColor.black else GoColor.white⟩ = true
          · rw [if_pos hleg] at h
            refine freeplayRebuild_ok_inv ?_ ?_ h
            · show (-1 : Int) ≤ s.currentMoveIndex + 1
              omega
            · show s.currentMoveIndex + 1 <
                ((s.history.take (s.currentMoveIndex + 1).toNat ++
                  [HistoryEntry.move
                    ⟨c, if s.isBlackTurn then GoColor.black else GoColor.white⟩]).length : Int)
              simp only [List.length_append, List.length_take, List.length_cons,
                List.length_nil]
              omega
          · rw [if_neg hleg] at h
            injection h with h
            subst h
            exact ⟨hlo, hhi, hvirgin, hbc, hturn⟩
      · rw [if_neg hb] at h
        injection h with h
        subst h
        exact ⟨hlo, hhi, hvirgin, hbc, hturn⟩

lemma freeplayReach_inv {s : FreeplayState} (h : FreeplayReachable s) : FreeplayInv s := by
  induction h with
  | init board rc cc cm tp ik => exact freeplayInit_inv board rc cc cm tp ik
  | step s a s' _ hstep ih => exact freeplayStep_inv ih hstep

/-- C8: In a FreeplayDiagram, from every reachable state whose cursor is at a
move (currentMoveIndex ≥ 0 — so undo is not a silent no-op), calling undo()
and then redo() succeeds and restores the current board and both capture
counts to their values immediately before the pair of calls; the turn
indicator is restored in alternating color mode, while in the fixed modes it
ends up at the fixed color (black mode → black to move, white mode → white to
move), which can differ from its pre-pair value while a contradictory
one-time to-play override is still displayed. -/
theorem undo_redo_restores_board_and_captures (s : FreeplayState)
    (hreach : FreeplayReachable s) (hidx : 0 ≤ s.currentMoveIndex) :
    ∃ s1 s2, freeplayUndo s = .ok s1 ∧ freeplayRedo s1 = .ok s2 ∧
      s2.currentBoard = s.currentBoard ∧
      s2.whiteCaptured = s.whiteCaptured ∧
      s2.blackCaptured = s.blackCaptured ∧
      (s.colorMode = .alternate → s2.isBlackTurn = s.isBlackTurn) ∧
      (s.colorMode = .black → s2.isBlackTurn = true) ∧
      (s.colorMode = .white → s2.isBlackTurn = false) := by
  obtain ⟨hlo, hhi, hvirgin, hbc, hturn⟩ := freeplayReach_inv hreach
  obtain ⟨acc, hf, hab, haw, habk⟩ := hbc hidx
  have hpre : ∃ acc1,
      rebuildFold
        { board := s.initialBoard, whiteCaptured := 0, blackCaptured := 0
          preBoard := s.initialBoard, lastMove := none }
        (s.history.take (s.currentMoveIndex - 1 + 1).toNat) = .ok acc1 := by
    have h1 : (s.currentMoveIndex - 1 + 1).toNat = s.currentMoveIndex.toNat := by omega
    rw [h1]
    have h2 : s.history.take s.currentMoveIndex.toNat =
        (s.history.take (s.currentMoveIndex + 1).toNat).take s.currentMoveIndex.toNat := by
      rw [List.take_take]
      congr 1
      omega
    rw [h2]
    exact rebuildFold_prefix hf
  obtain ⟨acc1, hf1⟩ := hpre
  obtain ⟨t1, ht1⟩ : ∃ t1,
      turnFromHistory s.colorMode s.history (s.currentMoveIndex - 1) = .ok t1 :=
    turnFromHistory_exists s.colorMode s.history (s.currentMoveIndex - 1)
      (by omega) (by omega)
  obtain ⟨out1, hrc1⟩ :
      ∃ out1 : RebuildOut, recomputeCore s.initialBoard s.colorMode s.ignoreKo s.history
          (s.currentMoveIndex - 1) = .ok out1 :=
    ⟨_, recomputeCore_ok_intro hf1 ht1⟩
  have hu1 : freeplayUndo s =
      .ok (applyRecompute { s with currentMoveIndex := s.currentMoveIndex - 1 } out1) := by
    unfold freeplayUndo
    rw [if_pos (show s.currentMoveIndex ≥ 0 from hidx)]
    exact freeplayRebuild_eq_of_core hrc1
  have hturn2 : ∃ t2, turnFromHistory s.colorMode s.history s.currentMoveIndex = .ok t2 ∧
      (s.colorMode = .alternate → t2 = s.isBlackTurn) ∧
      (s.colorMode = .black → t2 = true) ∧
      (s.colorMode = .white → t2 = false) := by
    cases hcm : s.colorMode with
    | black =>
        refine ⟨true, rfl, ?_, ?_, ?_⟩
        · intro hx; cases hx
        · intro _; rfl
        · intro hx; cases hx
    | white =>
        refine ⟨false, rfl, ?_, ?_, ?_⟩
        · intro hx; cases hx
        · intro hx; cases hx
        · intro _; rfl
    | alternate =>
        refine ⟨s.isBlackTurn, ?_, ?_, ?_, ?_⟩
        · exact hturn hidx hcm
        · intro _; rfl
        · intro hx; cases hx
        · intro hx; cases hx
  obtain ⟨t2, ht2, ht2a, ht2b, ht2w⟩ := hturn2
  have hf2 : rebuildFold
      { board := s.initialBoard, whiteCaptured := 0, blackCaptured := 0
        preBoard := s.initialBoard, lastMove := none }
      (s.history.take (s.currentMoveIndex - 1 + 1 + 1).toNat) = .ok acc := by
    have h3 : s.currentMoveIndex - 1 + 1 + 1 = s.currentMoveIndex + 1 := by omega
    rw [h3]
    exact hf
  have ht2' : turnFromHistory s.colorMode s.history (s.currentMoveIndex - 1 + 1) = .ok t2 := by
    have h4 : s.currentMoveIndex - 1 + 1 = s.currentMoveIndex := by omega
    rw [h4]
    exact ht2
  obtain ⟨out2, hrc2, hob2, how2, hobk2, hot2⟩ :
      ∃ out2 : RebuildOut, recomputeCore s.initialBoard s.colorMode s.ignoreKo s.history
          (s.currentMoveIndex - 1 + 1) = .ok out2 ∧ out2.board = acc.board ∧
          out2.whiteCaptured = acc.whiteCaptured ∧ out2.blackCaptured = acc.blackCaptured ∧
          out2.isBlackTurn = t2 :=
    ⟨_, recomputeCore_ok_intro hf2 ht2', rfl, rfl, rfl, rfl⟩
  have hguard : (applyRecompute { s with currentMoveIndex := s.currentMoveIndex - 1 } out1).currentMoveIndex <
      (((applyRecompute { s with currentMoveIndex := s.currentMoveIndex - 1 } out1).history.length : Int)) - 1 := by
    show s.currentMoveIndex - 1 < (s.history.length : Int) - 1
    omega
  have hu2 : freeplayRedo (applyRecompute { s with currentMoveIndex := s.currentMoveIndex - 1 } out1) =
      .ok (applyRecompute
        { (applyRecompute { s with currentMoveIndex := s.currentMoveIndex - 1 } out1) with
          currentMoveIndex :=
            (applyRecompute { s with currentMoveIndex := s.currentMoveIndex - 1 } out1).currentMoveIndex + 1 }
        out2) := by
    unfold freeplayRedo
    rw [if_pos hguard]
    exact freeplayRebuild_eq_of_core hrc2
  refine ⟨_, _, hu1, hu2, ?_, ?_, ?_, ?_, ?_, ?_⟩
  · show out2.board = s.currentBoard
    rw [hob2, hab]
  · show out2.whiteCaptured = s.whiteCaptured
    rw [how2, haw]
  · show out2.blackCaptured = s.blackCaptured
    rw [hobk2, habk]
  · intro hcm
    show out2.isBlackTurn = s.isBlackTurn
    rw [hot2, ht2a hcm]
  · intro hcm
    show out2.isBlackTurn = true
    rw [hot2, ht2b hcm]
  · intro hcm
    show out2.isBlackTurn = false
    rw [hot2, ht2w hcm]

/-- A 2×2 freeplay diagram in alternating mode. -/
def c8f0 : FreeplayState := freeplayInit (emptyBoard 2) 2 2 .alternate none false

/-- The state after a click at (0,0): one move in history, cursor 0. -/
def c8ws : FreeplayState :=
  match freeplayClick c8f0 (0, 0) with
  | .ok s => s
  | .error _ => c8f0

/-- The state after undoing that move: cursor −1, empty board again. -/
def c8a2 : FreeplayState :=
  match freeplayUndo c8ws with
  | .ok s => s
  | .error _ => c8f0

/-- The state redo reaches from `c8a2`. -/
def c8a3 : FreeplayState :=
  match freeplayRedo c8a2 with
  | .ok s => s
  | .error _ => c8f0

/-- A 2×2 freeplay diagram in fixed black mode with a contradictory
`to-play: white` override. -/
def c8b0 : FreeplayState := freeplayInit (emptyBoard 2) 2 2 .black (some .white) false

/-- That diagram after one pass: cursor 0, white still to move (fixed mode
does not toggle the stored turn). -/
def c8b1 : FreeplayState := freeplayPass c8b0

/-- The state after undoing the pass. -/
def c8bu : FreeplayState :=
  match freeplayUndo c8b1 with
  | .ok s => s
  | .error _ => c8b0

/-- The state after redoing the pass. -/
def c8br : FreeplayState :=
  match freeplayRedo c8bu with
  | .ok s => s
  | .error _ => c8b0

/-- C8, counterexample: the undo–redo pair is not a no-op from every
reachable state.  Scenario A: at cursor −1 (a reachable, valid cursor
position) undo is a silent no-op while redo advances, so the pair changes
the current board.  Scenario B: in fixed black mode with a one-time
`to-play: white` override, from cursor 0 the pair restores the board but
flips the turn indicator from white to black, because rebuildBoard derives
the turn from the color mode alone and ignores the stored override. -/
theorem undo_redo_pair_not_noop :
    (FreeplayReachable c8a2 ∧ freeplayUndo c8a2 = .ok c8a2 ∧
      freeplayRedo c8a2 = .ok c8a3 ∧ c8a3.currentBoard ≠ c8a2.currentBoard) ∧
    (FreeplayReachable c8b1 ∧ 0 ≤ c8b1.currentMoveIndex ∧ c8b1.isBlackTurn = false ∧
      freeplayUndo c8b1 = .ok c8bu ∧ freeplayRedo c8bu = .ok c8br ∧
      c8br.currentBoard = c8b1.currentBoard ∧ c8br.isBlackTurn = true) := by
  refine ⟨⟨?_, rfl, rfl, by decide⟩, ⟨?_, by decide, rfl, rfl, rfl, by decide, rfl⟩⟩
  · exact FreeplayReachable.step c8ws .undo c8a2
      (FreeplayReachable.step c8f0 (.click (0, 0)) c8ws
        (FreeplayReachable.init (emptyBoard 2) 2 2 .alternate none false) rfl) rfl
  · exact FreeplayReachable.step c8b0 .pass c8b1
      (FreeplayReachable.init (emptyBoard 2) 2 2 .black (some .white) false) rfl

/-- C8, witness: the amended round-trip theorem applied to the concrete
reachable state `c8ws` (alternating mode, one move played, cursor 0). -/
theorem undo_redo_restores_board_and_captures_witness :
    ∃ s1 s2, freeplayUndo c8ws = .ok s1 ∧ freeplayRedo s1 = .ok s2 ∧
      s2.currentBoard = c8ws.currentBoard ∧
      s2.whiteCaptured = c8ws.whiteCaptured ∧
      s2.blackCaptured = c8ws.blackCaptured ∧
      (c8ws.colorMode = .alternate → s2.isBlackTurn = c8ws.isBlackTurn) ∧
      (c8ws.colorMode = .black → s2.isBlackTurn = true) ∧
      (c8ws.colorMode = .white → s2.isBlackTurn = false) :=
  undo_redo_restores_board_and_captures c8ws
    (FreeplayReachable.step c8f0 (.click (0, 0)) c8ws
      (FreeplayReachable.init (emptyBoard 2) 2 2 .alternate none false) rfl)
    (by decide)

/-! ## Claim C9: declaration order of sibling paths

`mergeSequenceTrees` folds the later declaration into the earlier one,
so the children maps of the two declaration orders list their keys in
different insertion orders.  Play, however, observes the tree only
through `ImmutableMap.get` (`handleUserMove` looks up the clicked
coordinate in `currentTree`, `playComputerResponse` a child node), so
what matters is the looked-up node at the end of each descent. -/

/-- The cursor descent play performs: look each move up in the current
tree with `ImmutableMap.get` and continue in the found node's
`children`; the node reached by the last move (if any) is the one whose
`result` play would install. -/
def lookupPath : SequenceTree → List Pos → Option SequenceNode
  | _, [] => none
  | t, p :: rest =>
      match mget t p with
      | none => none
      | some n => if rest.isEmpty then some n else lookupPath n.children rest

lemma lookupPath_congr {t1 t2 : SequenceTree} (h : ∀ p, mget t1 p = mget t2 p) :
    ∀ ms, lookupPath t1 ms = lookupPath t2 ms
  | [] => rfl
  | p :: rest => by
      rw [lookupPath, lookupPath, h p]

lemma c9tree_eq (a b c : Pos) (f1 f2 : Bool) (hbc : b ≠ c) :
    buildSequenceTree [([.coord a, .coord b], f1), ([.coord a, .coord c], f2)] =
      .cons a
        (.mk .incomplete
          (.cons b (.mk (if f1 then .success else .failure) .nil .none)
            (.cons c (.mk (if f2 then .success else .failure) .nil .none) .nil))
          .none)
        .nil := by
  have hcb : ¬(c = b) := fun h => hbc h.symm
  simp [buildSequenceTree, addSequence, buildLoopState, flaggedRev, buildStep,
    mergeSequenceTrees, mergeNodes, mget, mset, tsize, isNoneW, hcb]

/-- C9: the sequence tree built from the sibling declarations
`[a>b, a>c]` and the one built from `[a>c, a>b]` assign the same result
to every move sequence played against them: each descent through
`ImmutableMap.get` ends at nodes with identical results (the two trees
differ only in the insertion order of the shared node's children map,
which `get` does not observe), so the reachable result sets coincide. -/
theorem sequence_tree_merge_order_independent (a b c : Pos) (f1 f2 : Bool)
    (hbc : b ≠ c) (moves : List Pos) :
    (lookupPath
        (buildSequenceTree [([.coord a, .coord b], f1), ([.coord a, .coord c], f2)])
        moves).map SequenceNode.result =
    (lookupPath
        (buildSequenceTree [([.coord a, .coord c], f2), ([.coord a, .coord b], f1)])
        moves).map SequenceNode.result := by
  have hcb : ¬(c = b) := fun h => hbc h.symm
  rw [c9tree_eq a b c f1 f2 hbc, c9tree_eq a c b f2 f1 hcb]
  have hchild : ∀ p',
      mget (.cons b (.mk (if f1 then .success else .failure) .nil .none)
        (.cons c (.mk (if f2 then .success else .failure) .nil .none) .nil)) p' =
      mget (.cons c (.mk (if f2 then .success else .failure) .nil .none)
        (.cons b (.mk (if f1 then .success else .failure) .nil .none) .nil)) p' := by
    intro p'
    by_cases h1 : p' = b
    · by_cases h2 : p' = c
      · exact absurd (h1 ▸ h2) hbc
      · simp [mget, h1, h2, hbc]
    · by_cases h2 : p' = c
      · simp [mget, h1, h2, hcb]
      · simp [mget, h1, h2]
  cases moves with
  | nil => rfl
  | cons p rest =>
      rw [lookupPath, lookupPath]
      by_cases hpa : p = a
      · simp only [mget, if_pos hpa]
        cases rest with
        | nil => rfl
        | cons q rest2 =>
            simp only [List.isEmpty_cons, SequenceNode.children, if_neg Bool.false_ne_true]
            rw [lookupPath_congr hchild (q :: rest2)]
      · simp [mget, hpa]

/-- C9, witness: the order-independence theorem at concrete coordinates
(0,0) > (0,1) as a solution and (0,0) > (1,0) as a failure sequence,
probed with the move sequence [(0,0), (0,1)]. -/
theorem sequence_tree_merge_order_independent_witness :
    ((0, 1) : Pos) ≠ ((1, 0) : Pos) ∧
    (lookupPath
        (buildSequenceTree
          [([.coord (0, 0), .coord (0, 1)], true), ([.coord (0, 0), .coord (1, 0)], false)])
        [(0, 0), (0, 1)]).map SequenceNode.result =
    (lookupPath
        (buildSequenceTree
          [([.coord (0, 0), .coord (1, 0)], false), ([.coord (0, 0), .coord (0, 1)], true)])
        [(0, 0), (0, 1)]).map SequenceNode.result :=
  ⟨by decide,
   sequence_tree_merge_order_independent (0, 0) (0, 1) (1, 0) true false (by decide)
     [(0, 0), (0, 1)]⟩

/-! ## Claim C10: the one-time `to-play` override versus `rebuildBoard` -/

/-- C10: with alternating color mode and a `to-play: white` override, the
constructor and `reset()` both apply the override (white to move), but
`rebuildBoard` does not: from any such state with the cursor at the first
move, undo succeeds, returns the cursor to −1 and derives black to move
(the cursor−1 branch of the turn derivation ignores the stored override),
while `reset()` from that same cursor−1 state — and from the original
state — sets white to move again. -/
theorem to_play_override_ignored_by_rebuild (board : Board) (rc cc : Nat) (ik : Bool)
    (s : FreeplayState) (hcm : s.colorMode = .alternate)
    (hidx : s.currentMoveIndex = 0) (htp : s.toPlay = some .white) :
    (freeplayInit board rc cc .alternate (some .white) ik).isBlackTurn = false ∧
    (∃ s1, freeplayUndo s = .ok s1 ∧ s1.currentMoveIndex = -1 ∧
      s1.isBlackTurn = true ∧ (freeplayReset s1).isBlackTurn = false) ∧
    (freeplayReset s).isBlackTurn = false := by
  refine ⟨rfl, ?_, ?_⟩
  · have hf : rebuildFold
        { board := s.initialBoard, whiteCaptured := 0, blackCaptured := 0
          preBoard := s.initialBoard, lastMove := none }
        (s.history.take ((0 : Int) - 1 + 1).toNat) = .ok
        { board := s.initialBoard, whiteCaptured := 0, blackCaptured := 0
          preBoard := s.initialBoard, lastMove := none } := by
      rw [show (((0 : Int) - 1 + 1).toNat) = 0 from rfl, List.take_zero]
      rfl
    have ht : turnFromHistory s.colorMode s.history ((0 : Int) - 1) = .ok true := by
      rw [hcm]
      rfl
    obtain ⟨out1, hrc1, hot1⟩ :
        ∃ out1 : RebuildOut, recomputeCore s.initialBoard s.colorMode s.ignoreKo s.history
            ((0 : Int) - 1) = .ok out1 ∧ out1.isBlackTurn = true :=
      ⟨_, recomputeCore_ok_intro hf ht, rfl⟩
    have hu : freeplayUndo s =
        .ok (applyRecompute { s with currentMoveIndex := (0 : Int) - 1 } out1) := by
      unfold freeplayUndo
      rw [hidx, if_pos (show (0 : Int) ≥ 0 from le_refl 0)]
      exact freeplayRebuild_eq_of_core hrc1
    refine ⟨_, hu, ?_, ?_, ?_⟩
    · show (0 : Int) - 1 = -1
      decide
    · show out1.isBlackTurn = true
      exact hot1
    · show (match s.toPlay with
        | some c => c == GoColor.black
        | none => s.colorMode != ColorMode.white) = false
      rw [htp]
      rfl
  · show (match s.toPlay with
      | some c => c == GoColor.black
      | none => s.colorMode != ColorMode.white) = false
    rw [htp]
    rfl

/-- A 2×2 freeplay diagram in alternating mode with a `to-play: white`
override, after one click at (0,0): cursor 0. -/
def c10s : FreeplayState :=
  match freeplayClick (freeplayInit (emptyBoard 2) 2 2 .alternate (some .white) false)
      (0, 0) with
  | .ok s => s
  | .error _ => freeplayInit (emptyBoard 2) 2 2 .alternate (some .white) false

/-- C10, witness: the override theorem at the concrete state `c10s`. -/
theorem to_play_override_ignored_by_rebuild_witness :
    (freeplayInit (emptyBoard 2) 2 2 .alternate (some .white) false).isBlackTurn = false ∧
    (∃ s1, freeplayUndo c10s = .ok s1 ∧ s1.currentMoveIndex = -1 ∧
      s1.isBlackTurn = true ∧ (freeplayReset s1).isBlackTurn = false) ∧
    (freeplayReset c10s).isBlackTurn = false :=
  to_play_override_ignored_by_rebuild (emptyBoard 2) 2 2 false c10s rfl (by decide) rfl

end GodashDiagrams
